import Mathlib

/-!
Verification of the message-format translator of the cursor-gcp-connector
proxy (src/proxy.py) against its natural-language specification.

The translator manipulates parsed JSON values.  We embed JSON values as the
inductive type `J` below (numbers are modelled as integers; none of the
translator's branches depends on non-integral numbers).  Python dicts are
modelled as association lists in insertion order, matching Python 3 dict
semantics for the unique-key objects produced by `json.loads`:
lookup finds the (unique) binding, assignment to an existing key keeps its
position, assignment to a fresh key appends at the end.

Python raises exceptions on a few inputs reachable inside the translator
(`" ".join` over a non-string, membership/insertion of an unhashable value
in a set); `do_POST` catches every such exception and answers locally with
a 500 error.  We model these as `Option`-valued functions: `none` is the
raised exception.
-/

namespace CursorProxy

/-- Values of the JSON data model manipulated by the proxy. -/
inductive J where
  | null : J
  | bool : Bool → J
  | num  : Int → J
  | str  : String → J
  | arr  : List J → J
  | obj  : List (String × J) → J

/-- Test whether a value is a Python dict (`isinstance(x, dict)`). -/
def J.isDict : J → Bool
  | .obj _ => true
  | _ => false

/-- Test whether a value is a Python list (`isinstance(x, list)`). -/
def J.isList : J → Bool
  | .arr _ => true
  | _ => false

/-- Test whether a value is a Python str (`isinstance(x, str)`). -/
def J.isStr : J → Bool
  | .str _ => true
  | _ => false

/-- Lookup in an association list, first binding wins (unique keys in
parsed JSON make this Python dict lookup). -/
def lookupF : List (String × J) → String → Option J
  | [], _ => none
  | (k, v) :: rest, key => if k = key then some v else lookupF rest key

/-- Python `d[k]` / `k in d` support: `some v` when the key is present. -/
def J.getOpt : J → String → Option J
  | .obj fs, key => lookupF fs key
  | _, _ => none

/-- Python `d.get(k, default)`. -/
def J.getD (j : J) (key : String) (d : J) : J :=
  match j.getOpt key with
  | some v => v
  | none => d

/-- Python `del d[k]` / absence after deletion: remove the binding. -/
def eraseF : List (String × J) → String → List (String × J)
  | [], _ => []
  | (k, v) :: rest, key => if k = key then eraseF rest key else (k, v) :: eraseF rest key

/-- Delete a top-level key from a dict; other values are unchanged. -/
def J.eraseKey : J → String → J
  | .obj fs, key => .obj (eraseF fs key)
  | j, _ => j

/-- Python `d[k] = v`: replace the existing binding in place, or append a
new binding at the end. -/
def setF : List (String × J) → String → J → List (String × J)
  | [], key, v => [(key, v)]
  | (k, w) :: rest, key, v =>
      if k = key then (k, v) :: rest else (k, w) :: setF rest key v

/-- Assignment `d[k] = v` on a dict; other values are unchanged. -/
def J.setKey : J → String → J → J
  | .obj fs, key, v => .obj (setF fs key v)
  | j, _, _ => j

/-- Python truthiness of a JSON value (`if x:`). -/
def pyTruthy : J → Bool
  | .null => false
  | .bool b => b
  | .num n => n != 0
  | .str s => s ≠ ""
  | .arr xs => !xs.isEmpty
  | .obj fs => !fs.isEmpty

/-- Hashability: Python lists and dicts cannot enter a set; adding or
testing one raises `TypeError`. -/
def hashableJ : J → Bool
  | .arr _ => false
  | .obj _ => false
  | _ => true

/-- Equality of hashable JSON values, as Python `==` uses it inside sets.
Only hashable values ever enter the pending-tool-id set, so the composite
cases never arise there.  (Python additionally identifies `1`, `1.0` and
`True`; the translator only ever stores ids coming from `id` fields, which
are strings in the wire format, so we model equality structurally.) -/
def primEq : J → J → Bool
  | .null, .null => true
  | .bool a, .bool b => a == b
  | .num a, .num b => a == b
  | .str a, .str b => a == b
  | _, _ => false

/-- Membership in a Python set modelled as a list of values. -/
def setMem (v : J) (s : List J) : Bool := s.any (fun w => primEq v w)

/-- Insertion into a Python set modelled as a list of values. -/
def setInsert (s : List J) (v : J) : List J :=
  if setMem v s then s else s ++ [v]

mutual

/-- Source `remove_cache_control` (proxy.py lines 90-101): recursively
remove every `cache_control` key from any nested structure. -/
def remove_cache_control : J → J
  | .obj fs => .obj (removeCCFields fs)
  | .arr xs => .arr (removeCCList xs)
  | j => j

/-- Field part of `remove_cache_control`: drop the `cache_control` binding,
recurse into the remaining values. -/
def removeCCFields : List (String × J) → List (String × J)
  | [] => []
  | (k, v) :: rest =>
      if k = "cache_control" then removeCCFields rest
      else (k, remove_cache_control v) :: removeCCFields rest

/-- List part of `remove_cache_control`: recurse into every element. -/
def removeCCList : List J → List J
  | [] => []
  | x :: xs => remove_cache_control x :: removeCCList xs

end

/-- Single quote character, used by the Python `repr` of strings. -/
def sq : String := String.singleton (Char.ofNat 39)

/-- Escape one character inside a Python-repr string (approximation: the
common escapes; exotic control characters are kept literally, they never
occur in the wire format handled by the proxy). -/
def reprEscChar (c : Char) : String :=
  if c = '\\' then "\\\\"
  else if c.toNat = 39 then "\\" ++ sq
  else if c = '\n' then "\\n"
  else if c = '\t' then "\\t"
  else if c = '\r' then "\\r"
  else String.singleton c

mutual

/-- Python `repr` of a JSON value (as `str` renders list/dict elements). -/
def pyRepr : J → String
  | .null => "None"
  | .bool b => if b then "True" else "False"
  | .num n => toString n
  | .str s => sq ++ String.join (s.data.map reprEscChar) ++ sq
  | .arr xs => "[" ++ pyReprList xs ++ "]"
  | .obj fs => "\x7b" ++ pyReprFields fs ++ "\x7d"

/-- Comma-joined reprs of list elements. -/
def pyReprList : List J → String
  | [] => ""
  | [x] => pyRepr x
  | x :: xs => pyRepr x ++ ", " ++ pyReprList xs

/-- Comma-joined reprs of dict bindings. -/
def pyReprFields : List (String × J) → String
  | [] => ""
  | [(k, v)] => pyRepr (.str k) ++ ": " ++ pyRepr v
  | (k, v) :: fs => pyRepr (.str k) ++ ": " ++ pyRepr v ++ ", " ++ pyReprFields fs

end

/-- Python `str()` of a JSON value: a string renders as itself, everything
else as its repr. -/
def pyStr : J → String
  | .str s => s
  | j => pyRepr j

/-- Hexadecimal digit, lower case, as Python's json escapes use. -/
def hexDigit (n : Nat) : Char :=
  if n < 10 then Char.ofNat (48 + n) else Char.ofNat (87 + n)

/-- Escape one character as `json.dumps` does (approximation: `ensure_ascii`
re-escaping of non-ASCII characters is not modelled; the wire format the
proxy handles is ASCII). -/
def jsonEscChar (c : Char) : String :=
  if c = '"' then "\\\""
  else if c = '\\' then "\\\\"
  else if c = '\n' then "\\n"
  else if c = '\t' then "\\t"
  else if c = '\r' then "\\r"
  else if c.toNat = 8 then "\\b"
  else if c.toNat = 12 then "\\f"
  else if c.toNat < 32 then
    "\\u00" ++ String.singleton (hexDigit (c.toNat / 16)) ++ String.singleton (hexDigit (c.toNat % 16))
  else String.singleton c

/-- Serialization of a string literal under `json.dumps`. -/
def dumpStr (s : String) : String :=
  "\"" ++ String.join (s.data.map jsonEscChar) ++ "\""

mutual

/-- Python `json.dumps` with its default separators (`", "` and `": "`). -/
def dumps : J → String
  | .null => "null"
  | .bool b => if b then "true" else "false"
  | .num n => toString n
  | .str s => dumpStr s
  | .arr xs => "[" ++ dumpsList xs ++ "]"
  | .obj fs => "\x7b" ++ dumpsFields fs ++ "\x7d"

/-- Array elements of `json.dumps`, comma-separated. -/
def dumpsList : List J → String
  | [] => ""
  | [x] => dumps x
  | x :: xs => dumps x ++ ", " ++ dumpsList xs

/-- Object bindings of `json.dumps`, comma-separated. -/
def dumpsFields : List (String × J) → String
  | [] => ""
  | [(k, v)] => dumpStr k ++ ": " ++ dumps v
  | (k, v) :: fs => dumpStr k ++ ": " ++ dumps v ++ ", " ++ dumpsFields fs

end

/-- Python `x == lit` against a string literal: false for every non-string
value. -/
def jStrEq (j : J) (lit : String) : Bool :=
  match j with
  | .str s => s = lit
  | _ => false

/-- Test `item.get("type") == t` for a string tag `t`. -/
def isType (it : J) (t : String) : Bool :=
  jStrEq (it.getD "type" .null) t

/-- Python `sep.join(parts)`: every element must be a string, otherwise a
`TypeError` is raised (modelled as `none`). -/
def pyJoin (sep : String) : List J → Option String
  | [] => some ""
  | [.str s] => some s
  | .str s :: rest => (pyJoin sep rest).map (fun r => s ++ sep ++ r)
  | _ => none

/-- Source `convert_tool_use_to_openai` (proxy.py lines 129-149). -/
def convert_tool_use_to_openai (tool_use : J) : J :=
  let input_data := tool_use.getD "input" (.obj [])
  let arguments := if input_data.isDict then dumps input_data else pyStr input_data
  .obj [("id", tool_use.getD "id" (.str "")),
        ("type", .str "function"),
        ("function", .obj [("name", tool_use.getD "name" (.str "")),
                           ("arguments", .str arguments)])]

/-- Source `tool_ids.add(tool_id)` guarded by `if tool_id:` — a truthy
unhashable id raises `TypeError` (`none`). -/
def addId (s : List J) (tid : J) : Option (List J) :=
  if pyTruthy tid then
    if hashableJ tid then some (setInsert s tid) else none
  else some s

/-- First loop of `extract_tool_use_ids`: ids of `tool_use` content blocks. -/
def extractFromBlocks (acc : List J) : List J → Option (List J)
  | [] => some acc
  | it :: rest =>
      if it.isDict && isType it "tool_use" then
        match addId acc (it.getD "id" .null) with
        | some acc2 => extractFromBlocks acc2 rest
        | none => none
      else extractFromBlocks acc rest

/-- Second loop of `extract_tool_use_ids`: ids of OpenAI-style `tool_calls`. -/
def extractFromCalls (acc : List J) : List J → Option (List J)
  | [] => some acc
  | tc :: rest =>
      if tc.isDict then
        match addId acc (tc.getD "id" .null) with
        | some acc2 => extractFromCalls acc2 rest
        | none => none
      else extractFromCalls acc rest

/-- Source `extract_tool_use_ids` (proxy.py lines 104-126): collect tool ids
from both the Anthropic content blocks and an OpenAI `tool_calls` array
(each loop runs only when the corresponding value is a list). -/
def extract_tool_use_ids (msg : J) : Option (List J) :=
  match (match msg.getD "content" (.arr []) with
         | .arr items => extractFromBlocks [] items
         | _ => some []) with
  | none => none
  | some s1 =>
      match msg.getD "tool_calls" (.arr []) with
      | .arr calls => extractFromCalls s1 calls
      | _ => some s1

/-- Source `convert_tool_result_to_openai` (proxy.py lines 152-175): flatten
nested content to a string and emit a `role: tool` message.  A list content
holding a `text` block whose `text` value is not a string makes Python's
`"\n".join` raise (`none`). -/
def convert_tool_result_to_openai (tool_result : J) : Option J :=
  let tid := tool_result.getD "tool_use_id" (.str "")
  match tool_result.getD "content" (.str "") with
  | .arr items =>
      let parts := items.filterMap (fun it =>
        if it.isDict then
          (if isType it "text" then some (it.getD "text" (.str "")) else none)
        else match it with
          | .str s => some (J.str s)
          | _ => none)
      (pyJoin "\n" parts).map (fun c =>
        .obj [("role", .str "tool"), ("tool_call_id", tid), ("content", .str c)])
  | c => some (.obj [("role", .str "tool"), ("tool_call_id", tid),
                     ("content", .str (pyStr c))])

/-- Source `convert_image_to_openai` (proxy.py lines 178-210): base64
sources become a data URL (f-string, hence `str()` of the parts); url
sources pass the url value through; unknown source shapes fall back to the
top-level `url` field, then to the source's `url` field.  When the present
`source` value is not a dict, `source.get("type", "")` at line 190 raises
`AttributeError` (`none`, caught by `do_POST` and answered as a local
500); the `item.get("source", {})` default keeps an absent source a dict. -/
def convert_image_to_openai (item : J) : Option J :=
  let source := item.getD "source" (.obj [])
  if source.isDict then
    let source_type := source.getD "type" (.str "")
    if jStrEq source_type "base64" then
      let media_type := source.getD "media_type" (.str "image/png")
      let data := source.getD "data" (.str "")
      some (.obj [("type", .str "image_url"),
            ("image_url", .obj [("url",
              .str ("data:" ++ pyStr media_type ++ ";base64," ++ pyStr data))])])
    else if jStrEq source_type "url" then
      some (.obj [("type", .str "image_url"),
            ("image_url", .obj [("url", source.getD "url" (.str ""))])])
    else
      some (.obj [("type", .str "image_url"),
            ("image_url", .obj [("url",
              match item.getOpt "url" with
              | some u => u
              | none => source.getD "url" (.str ""))])])
  else none

/-- Assistant branch of `clean_messages` (proxy.py lines 237-274): extract
the new pending ids, convert `tool_use` blocks to a `tool_calls` array, and
reduce `content` to a joined text string or `None`.  Returns the emitted
messages and the new pending-tool-id set. -/
def processAssistant (msg : J) : Option (List J × List J) := do
  let pending ← extract_tool_use_ids msg
  match msg.getD "content" .null with
  | .arr items =>
      let tool_calls := items.filterMap (fun it =>
        if it.isDict && isType it "tool_use" then some (convert_tool_use_to_openai it)
        else none)
      let other := items.filterMap (fun it =>
        if it.isDict then
          (if isType it "tool_use" then none else some (remove_cache_control it))
        else some it)
      if tool_calls.isEmpty then
        pure ([msg.setKey "content" (if other.isEmpty then .arr items else .arr other)],
              pending)
      else
        let msg1 := msg.setKey "tool_calls" (.arr tool_calls)
        if other.isEmpty then
          pure ([msg1.setKey "content" .null], pending)
        else
          let text_parts := other.filterMap (fun it =>
            if it.isDict && isType it "text" then some (it.getD "text" (.str ""))
            else none)
          if text_parts.isEmpty then
            pure ([msg1.setKey "content" .null], pending)
          else do
            let s ← pyJoin " " text_parts
            pure ([msg1.setKey "content" (.str s)], pending)
  | _ => pure ([msg], pending)

/-- One iteration of the user-branch loop of `clean_messages` (proxy.py
lines 283-308): the pair is this item's contribution to `new_content` and
to `tool_messages`.  A `tool_result` with an unhashable `tool_use_id`
raises on the pending-set membership test (`none`). -/
def userItem (pending : List J) (it : J) : Option (List J × List J) :=
  if it.isDict then
    if isType it "tool_result" then
      let tid := it.getD "tool_use_id" (.str "")
      if hashableJ tid then
        if setMem tid pending then
          (convert_tool_result_to_openai it).map (fun tm => ([], [tm]))
        else some ([], [])
      else none
    else if isType it "image" then
      (convert_image_to_openai it).map (fun c => ([c], []))
    else some ([remove_cache_control it], [])
  else some ([it], [])

/-- User-branch loop of `clean_messages`: accumulate `new_content` and
`tool_messages` over the content blocks, in order. -/
def processUserItems (pending : List J) : List J → Option (List J × List J)
  | [] => some ([], [])
  | it :: rest => do
      let (a, b) ← userItem pending it
      let (nc, tms) ← processUserItems pending rest
      pure (a ++ nc, b ++ tms)

/-- Final else branch of `clean_messages` (proxy.py lines 328-334): strip
`cache_control` from dict items of a list content (in place in the source)
and keep the message; the pending set is not touched. -/
def passThrough (pending : List J) (msg : J) : Option (List J × List J) :=
  match msg.getD "content" .null with
  | .arr items =>
      some ([msg.setKey "content" (.arr (items.map (fun it =>
        if it.isDict then remove_cache_control it else it)))], pending)
  | _ => some ([msg], pending)

/-- One iteration of the `clean_messages` scan: given the pending-tool-id
set and one element of the messages list, produce the messages appended to
`cleaned` for it and the pending set afterwards. -/
def cleanStep (pending : List J) (msg : J) : Option (List J × List J) :=
  if msg.isDict then
    let role := msg.getD "role" (.str "")
    if jStrEq role "assistant" then processAssistant msg
    else
      match msg.getD "content" .null with
      | .arr items =>
          if jStrEq role "user" then do
            let (nc, tms) ← processUserItems pending items
            pure ((if nc.isEmpty then [] else [msg.setKey "content" (.arr nc)]) ++ tms,
                  [])
          else passThrough pending msg
      | _ => passThrough pending msg
  else some ([msg], pending)

/-- Scan of `clean_messages` over the message list, threading the pending
set; returns the cleaned list and the final pending set. -/
def cleanMessagesAux : List J → List J → Option (List J × List J)
  | p, [] => some ([], p)
  | p, m :: ms => do
      let (o, p2) ← cleanStep p m
      let (rest, pf) ← cleanMessagesAux p2 ms
      pure (o ++ rest, pf)

/-- Source `clean_messages` (proxy.py lines 213-336), starting from an
empty pending-tool-id set. -/
def clean_messages (messages : List J) : Option (List J) :=
  (cleanMessagesAux [] messages).map (fun r => r.1)

/-- Source `BLOCKED_PARAMS` (proxy.py lines 44-52). -/
def BLOCKED_PARAMS : List String :=
  ["tool_choice", "thinking", "reasoning_effort", "extended_thinking",
   "budget_tokens", "metadata", "stream_options"]

/-- Field-stripping stage of `process_request_body` (proxy.py lines
345-353): delete the blocked top-level parameters, then recursively remove
`cache_control` from the `system` value when present.  Non-mapping bodies
are outside the request-envelope data model and are left unchanged. -/
def stripFields (data : J) : J :=
  match data with
  | .obj _ =>
      let d1 := BLOCKED_PARAMS.foldl (fun d p => d.eraseKey p) data
      match d1.getOpt "system" with
      | some v => d1.setKey "system" (remove_cache_control v)
      | none => d1
  | d => d

/-- Source `process_request_body` (proxy.py lines 339-363): strip fields,
then clean the messages list.  A non-mapping body, or a non-list `messages`
value, is outside the envelope data model (the source degenerates or raises
there); both are modelled as a translation fault (`none`). -/
def process_request_body (data : J) : Option J :=
  match data with
  | .obj _ =>
      let d2 := stripFields data
      match d2.getOpt "messages" with
      | some (.arr ms) => (clean_messages ms).map (fun ms2 => d2.setKey "messages" (.arr ms2))
      | some _ => none
      | none => some d2
  | _ => none

/-- Skip JSON whitespace. -/
def skipWs : List Char → List Char
  | c :: rest =>
      if c = ' ' || c = '\t' || c = '\n' || c = '\r' then skipWs rest else c :: rest
  | [] => []

/-- Split a leading run of decimal digits. -/
def splitDigits : List Char → (List Char × List Char)
  | c :: rest =>
      if c.isDigit then
        let (ds, r) := splitDigits rest
        (c :: ds, r)
      else ([], c :: rest)
  | [] => ([], [])

/-- Numeric value of a digit run. -/
def digitsVal (ds : List Char) : Nat :=
  ds.foldl (fun acc c => acc * 10 + (c.toNat - 48)) 0

/-- Value of a hexadecimal digit, if any. -/
def hexVal (c : Char) : Option Nat :=
  if c.isDigit then some (c.toNat - 48)
  else if 97 ≤ c.toNat && c.toNat ≤ 102 then some (c.toNat - 87)
  else if 65 ≤ c.toNat && c.toNat ≤ 70 then some (c.toNat - 55)
  else none

/-- Parse the four hex digits of a `\u` escape. -/
def pHex4 : List Char → Option (Nat × List Char)
  | a :: b :: c :: d :: rest => do
      let x ← hexVal a
      let y ← hexVal b
      let z ← hexVal c
      let w ← hexVal d
      pure (((x * 16 + y) * 16 + z) * 16 + w, rest)
  | _ => none

/-- Parse the remainder of a JSON string literal (opening quote already
consumed), returning its value and the rest of the input. -/
def pString : Nat → List Char → Option (String × List Char)
  | 0, _ => none
  | _, [] => none
  | fuel + 1, c :: rest =>
      if c = '"' then some ("", rest)
      else if c = '\\' then
        match rest with
        | e :: rest2 =>
            if e = 'u' then do
              let (n, rest3) ← pHex4 rest2
              let (s, r) ← pString fuel rest3
              pure (String.singleton (Char.ofNat n) ++ s, r)
            else do
              let ch ← if e = '"' then some '"'
                       else if e = '\\' then some '\\'
                       else if e = '/' then some '/'
                       else if e = 'n' then some '\n'
                       else if e = 't' then some '\t'
                       else if e = 'r' then some '\r'
                       else if e = 'b' then some (Char.ofNat 8)
                       else if e = 'f' then some (Char.ofNat 12)
                       else none
              let (s, r) ← pString fuel rest2
              pure (String.singleton ch ++ s, r)
        | [] => none
      else if c.toNat < 32 then none
      else do
        let (s, r) ← pString fuel rest
        pure (String.singleton c ++ s, r)

/-- Parse an integer JSON number (the proxy's wire traffic carries integral
numbers; a fraction or exponent is not modelled and fails the parse). -/
def pNum (cs : List Char) : Option (J × List Char) :=
  let (neg, cs1) := match cs with
    | c :: rest => if c = '-' then (true, rest) else (false, cs)
    | [] => (false, cs)
  match splitDigits cs1 with
  | ([], _) => none
  | (ds, rest) =>
      if ds.length > 1 && ds.headD '0' = '0' then none
      else
        match rest with
        | c :: _ =>
            if c = '.' || c = 'e' || c = 'E' then none
            else some (.num (if neg then -(digitsVal ds : Int) else (digitsVal ds : Int)), rest)
        | [] => some (.num (if neg then -(digitsVal ds : Int) else (digitsVal ds : Int)), [])

mutual

/-- Parse one JSON value, modelling `json.loads` (integral numbers only). -/
def pVal : Nat → List Char → Option (J × List Char)
  | 0, _ => none
  | fuel + 1, cs =>
      match skipWs cs with
      | [] => none
      | c :: rest =>
          if c = '"' then (pString (fuel + 1) rest).map (fun (s, r) => (J.str s, r))
          else if c = 'n' then
            match rest with
            | 'u' :: 'l' :: 'l' :: r => some (.null, r)
            | _ => none
          else if c = 't' then
            match rest with
            | 'r' :: 'u' :: 'e' :: r => some (.bool true, r)
            | _ => none
          else if c = 'f' then
            match rest with
            | 'a' :: 'l' :: 's' :: 'e' :: r => some (.bool false, r)
            | _ => none
          else if c = '[' then
            match skipWs rest with
            | ']' :: r => some (.arr [], r)
            | cs2 => (pElems fuel cs2).map (fun (xs, r) => (J.arr xs, r))
          else if c = Char.ofNat 123 then
            match skipWs rest with
            | c2 :: r =>
                if c2 = Char.ofNat 125 then some (.obj [], r)
                else (pMembers fuel (c2 :: r)).map (fun (fs, r2) => (J.obj fs, r2))
            | [] => none
          else if c = '-' || c.isDigit then pNum (c :: rest)
          else none

/-- Parse the comma-separated elements of a JSON array (first element
pending, closing bracket not yet seen). -/
def pElems : Nat → List Char → Option (List J × List Char)
  | 0, _ => none
  | fuel + 1, cs => do
      let (v, r1) ← pVal fuel cs
      match skipWs r1 with
      | ',' :: r2 => (pElems fuel r2).map (fun (xs, r) => (v :: xs, r))
      | ']' :: r2 => some ([v], r2)
      | _ => none

/-- Parse the comma-separated members of a JSON object (first member
pending, closing brace not yet seen). -/
def pMembers : Nat → List Char → Option (List (String × J) × List Char)
  | 0, _ => none
  | fuel + 1, cs =>
      match skipWs cs with
      | '"' :: r1 => do
          let (k, r2) ← pString (fuel + 1) r1
          match skipWs r2 with
          | ':' :: r3 => do
              let (v, r4) ← pVal fuel r3
              match skipWs r4 with
              | ',' :: r5 => (pMembers fuel r5).map (fun (fs, r) => ((k, v) :: fs, r))
              | c :: r5 =>
                  if c = Char.ofNat 125 then some ([(k, v)], r5) else none
              | [] => none
          | _ => none
      | _ => none

end

/-- Model of `json.loads` over a whole body: one value, nothing but
whitespace after it. -/
def parseJson (s : String) : Option J :=
  match pVal (2 * s.length + 8) s.data with
  | some (v, rest) => if (skipWs rest).isEmpty then some v else none
  | none => none

/-- Outcome of `ProxyHandler.do_POST` as far as the translator is
concerned: either the rewritten body is forwarded to the backend, or an
exception was caught and answered locally with a 500 JSON error. -/
inductive PostOutcome where
  | forwarded : J → PostOutcome
  | localError : PostOutcome

/-- Body handling of `ProxyHandler.do_POST` (proxy.py lines 377-449):
`data = json.loads(body) if body else {}` inside the try block, then
`process_request_body`; any raised exception is answered locally. -/
def handlePost (body : String) : PostOutcome :=
  match (if body = "" then some (J.obj []) else parseJson body) with
  | none => .localError
  | some d =>
      match process_request_body d with
      | none => .localError
      | some d2 => .forwarded d2

mutual

/-- Specification predicate: no `cache_control` key occurs at any nesting
depth inside the value. -/
def ccFree : J → Bool
  | .obj fs => ccFreeFields fs
  | .arr xs => ccFreeList xs
  | _ => true

/-- Field part of `ccFree`. -/
def ccFreeFields : List (String × J) → Bool
  | [] => true
  | (k, v) :: rest => (k ≠ "cache_control") && ccFree v && ccFreeFields rest

/-- List part of `ccFree`. -/
def ccFreeList : List J → Bool
  | [] => true
  | x :: xs => ccFree x && ccFreeList xs

end

/-- Specification predicate: every content block (per the data model, a
tagged object inside a list-valued `content`) is `ccFree`.  A string
content has no blocks. -/
def blocksCCFree (content : J) : Bool :=
  match content with
  | .arr items => items.all (fun b => !b.isDict || ccFree b)
  | _ => true

/-- Specification predicate: the content blocks of one message carry no
`cache_control` at any depth. -/
def msgBlocksCCFree (m : J) : Bool :=
  if m.isDict then blocksCCFree (m.getD "content" .null) else true

/-- Specification predicate of claim C7 on a rewritten envelope: no
`cache_control` key occurs at any nesting depth within the `system` field
or within any content block of any message. -/
def envContentCCFree (d : J) : Bool :=
  ccFree (d.getD "system" .null) &&
  (match d.getOpt "messages" with
   | some (.arr ms) => ms.all msgBlocksCCFree
   | _ => true)

/-- The image conversion succeeds and the url value it embeds is a string
(always the case for the base64 branch; for the url and fallback branches
it asks that the carried-over url value be a string, the shape of the data
model). -/
def imageUrlOk (b : J) : Bool :=
  match convert_image_to_openai b with
  | some c => ((c.getD "image_url" (.obj [])).getD "url" .null).isStr
  | none => false

/-- Per-message form of the amended C7 hypothesis: every `image` block of a
list-valued user-message content converts to a string url. -/
def msgImagesOk (m : J) : Bool :=
  if m.isDict then
    if jStrEq (m.getD "role" (.str "")) "user" then
      match m.getD "content" .null with
      | .arr items => items.all (fun b =>
          !(b.isDict && isType b "image") || imageUrlOk b)
      | _ => true
    else true
  else true

/-- Hypothesis of the amended claim C7: every `image` block inside a
list-valued user-message content converts to a string url. -/
def imagesOk (d : J) : Bool :=
  match d.getOpt "messages" with
  | some (.arr ms) => ms.all msgImagesOk
  | _ => true

/-- Fixture: the claim C1 `tool_use` block. -/
def exToolUse : J :=
  .obj [("type", .str "tool_use"), ("id", .str "a"), ("name", .str "f"),
        ("input", .obj [("x", .num 1)])]

/-- Fixture: assistant message carrying `exToolUse`. -/
def exAssistant : J :=
  .obj [("role", .str "assistant"), ("content", .arr [exToolUse])]

/-- Fixture: the OpenAI-style descriptor `exToolUse` converts to. -/
def exToolCallOut : J :=
  .obj [("id", .str "a"), ("type", .str "function"),
        ("function", .obj [("name", .str "f"),
                           ("arguments", .str "\x7b\"x\": 1\x7d")])]

/-- Fixture: the rewritten form of `exAssistant`. -/
def exAssistantOut : J :=
  .obj [("role", .str "assistant"), ("content", .null),
        ("tool_calls", .arr [exToolCallOut])]

/-- Fixture: the claim C1 `tool_result` block. -/
def exToolResult : J :=
  .obj [("type", .str "tool_result"), ("tool_use_id", .str "a"),
        ("content", .str "ok")]

/-- Fixture: user message carrying `exToolResult`. -/
def exUser : J :=
  .obj [("role", .str "user"), ("content", .arr [exToolResult])]

/-- Fixture: the `role: tool` message `exToolResult` converts to. -/
def exToolMsg : J :=
  .obj [("role", .str "tool"), ("tool_call_id", .str "a"),
        ("content", .str "ok")]

/-- Fixture: user message whose content is a plain string. -/
def exUserStr : J :=
  .obj [("role", .str "user"), ("content", .str "hi")]

/-- Fixture: a plain text content block. -/
def exTextBlock : J :=
  .obj [("type", .str "text"), ("text", .str "hi")]

/-- Fixture: user message whose content is a list with one text block. -/
def exUserText : J :=
  .obj [("role", .str "user"), ("content", .arr [exTextBlock])]

/-- Fixture: a `tool_result` whose id `z` was never introduced. -/
def exToolResultZ : J :=
  .obj [("type", .str "tool_result"), ("tool_use_id", .str "z"),
        ("content", .str "old")]

/-- Fixture: user message holding only the orphaned `exToolResultZ`. -/
def exUserOrphan : J :=
  .obj [("role", .str "user"), ("content", .arr [exToolResultZ])]

/-- Fixture: pending-tool-id set holding the single id `a`. -/
def exPendingA : List J := [.str "a"]

/-- Fixture: an OpenAI-style tool-call entry with id `a`. -/
def exTcOA : J :=
  .obj [("id", .str "a"), ("type", .str "function"),
        ("function", .obj [("name", .str "f"), ("arguments", .str "\x7b\x7d")])]

/-- Fixture: assistant message already in OpenAI form (string content and a
`tool_calls` array). -/
def exAsstOA : J :=
  .obj [("role", .str "assistant"), ("content", .str "calling"),
        ("tool_calls", .arr [exTcOA])]

/-- Fixture: claim C5 envelope fields, one passthrough field, two blocked
fields and an empty messages list. -/
def exEnvC5Fields : List (String × J) :=
  [("model", .str "m"), ("tool_choice", .str "auto"),
   ("metadata", .obj []), ("messages", .arr [])]

/-- Fixture: the rewritten form of the claim C5 envelope. -/
def exEnvC5Out : J := .obj [("model", .str "m"), ("messages", .arr [])]

/-- Fixture: image block whose url source carries a dict url value holding
a `cache_control` key. -/
def exImgBad : J :=
  .obj [("type", .str "image"),
        ("source", .obj [("type", .str "url"),
                         ("url", .obj [("cache_control", .num 1)])])]

/-- Fixture: envelope whose only message carries `exImgBad`. -/
def exEnvBad : J :=
  .obj [("messages", .arr [.obj [("role", .str "user"),
                                 ("content", .arr [exImgBad])]])]

/-- Fixture: the rewritten form of `exEnvBad`; the `cache_control` key
survives inside the converted image block. -/
def exEnvBadOut : J :=
  .obj [("messages", .arr [.obj [("role", .str "user"),
    ("content", .arr [.obj [("type", .str "image_url"),
      ("image_url", .obj [("url", .obj [("cache_control", .num 1)])])]])]])]

/-- Fixture: text block annotated with `cache_control`. -/
def exTextBlockCC : J :=
  .obj [("type", .str "text"), ("text", .str "hi"),
        ("cache_control", .obj [("type", .str "ephemeral")])]

/-- Fixture: envelope with `cache_control` under both `system` and a user
content block. -/
def exEnvC7W : J :=
  .obj [("system", .obj [("text", .str "s"),
                         ("cache_control", .obj [("type", .str "ephemeral")])]),
        ("messages", .arr [.obj [("role", .str "user"),
                                 ("content", .arr [exTextBlockCC])]])]

/-- Fixture: the rewritten form of `exEnvC7W`, fully stripped. -/
def exEnvC7WOut : J :=
  .obj [("system", .obj [("text", .str "s")]),
        ("messages", .arr [.obj [("role", .str "user"),
                                 ("content", .arr [exTextBlock])]])]

/-- Fixture: the claim C8 base64 image block. -/
def exImg64 : J :=
  .obj [("type", .str "image"),
        ("source", .obj [("type", .str "base64"),
                         ("media_type", .str "image/png"),
                         ("data", .str "AAAA")])]

/-- Fixture: the converted form of `exImg64`. -/
def exImg64Out : J :=
  .obj [("type", .str "image_url"),
        ("image_url", .obj [("url", .str "data:image/png;base64,AAAA")])]

/-- Fixture: image block with an unrecognized source shape and a top-level
url field. -/
def exImgUnknown : J :=
  .obj [("type", .str "image"),
        ("source", .obj [("type", .str "weird")]),
        ("url", .str "http://img.example/x.png")]

/-- Fixture: image block whose present source value is a string, not a
dict, with a top-level url field the claimed fallback would use. -/
def exImgStrSource : J :=
  .obj [("type", .str "image"), ("source", .str "abc"),
        ("url", .str "http://img.example/x.png")]

/-- Fixture: envelope whose only message carries `exImgStrSource`. -/
def exEnvStrSource : J :=
  .obj [("messages", .arr [.obj [("role", .str "user"),
                                 ("content", .arr [exImgStrSource])]])]

/-! Helper lemmas about the dict operations. -/

theorem lookupF_setF_self (fs : List (String × J)) (k : String) (v : J) :
    lookupF (setF fs k v) k = some v := by
  induction fs with
  | nil => simp [setF, lookupF]
  | cons p rest ih =>
      obtain ⟨k1, v1⟩ := p
      by_cases h : k1 = k
      · simp [setF, h, lookupF]
      · simp [setF, h, lookupF, ih]

theorem lookupF_setF_other (fs : List (String × J)) (k k' : String) (v : J)
    (h : k ≠ k') : lookupF (setF fs k v) k' = lookupF fs k' := by
  induction fs with
  | nil => simp [setF, lookupF, h]
  | cons p rest ih =>
      obtain ⟨k1, v1⟩ := p
      by_cases h1 : k1 = k
      · subst h1
        simp [setF, lookupF, h]
      · simp [setF, h1, lookupF, ih]

theorem lookupF_eraseF_self (fs : List (String × J)) (k : String) :
    lookupF (eraseF fs k) k = none := by
  induction fs with
  | nil => simp [eraseF, lookupF]
  | cons p rest ih =>
      obtain ⟨k1, v1⟩ := p
      by_cases h : k1 = k
      · simp [eraseF, h, ih]
      · simp [eraseF, h, lookupF, ih]

theorem lookupF_eraseF_other (fs : List (String × J)) (k k' : String)
    (h : k ≠ k') : lookupF (eraseF fs k) k' = lookupF fs k' := by
  induction fs with
  | nil => simp [eraseF, lookupF]
  | cons p rest ih =>
      obtain ⟨k1, v1⟩ := p
      by_cases h1 : k1 = k
      · subst h1
        simp [eraseF, lookupF, h, ih]
      · simp [eraseF, h1, lookupF, ih]

theorem eraseF_of_lookup_none (fs : List (String × J)) (k : String)
    (h : lookupF fs k = none) : eraseF fs k = fs := by
  induction fs with
  | nil => simp [eraseF]
  | cons p rest ih =>
      obtain ⟨k1, v1⟩ := p
      by_cases h1 : k1 = k
      · simp [lookupF, h1] at h
      · simp [lookupF, h1] at h
        simp [eraseF, h1, ih h]

theorem setF_setF (fs : List (String × J)) (k : String) (v w : J) :
    setF (setF fs k v) k w = setF fs k w := by
  induction fs with
  | nil => simp [setF]
  | cons p rest ih =>
      obtain ⟨k1, v1⟩ := p
      by_cases h : k1 = k
      · simp [setF, h]
      · simp [setF, h, ih]

theorem eraseF_setF_comm (fs : List (String × J)) (k q : String) (v : J)
    (h : q ≠ k) : eraseF (setF fs k v) q = setF (eraseF fs q) k v := by
  induction fs with
  | nil => simp [setF, eraseF, Ne.symm h]
  | cons p rest ih =>
      obtain ⟨k1, v1⟩ := p
      by_cases h1 : k1 = k
      · subst h1
        simp [setF, eraseF, Ne.symm h]
      · by_cases h2 : k1 = q
        · subst h2
          simp [setF, h1, eraseF, ih]
        · simp [setF, h1, eraseF, h2, ih]

theorem getOpt_setKey_self (d : J) (k : String) (v : J) (hd : d.isDict = true) :
    (d.setKey k v).getOpt k = some v := by
  cases d <;> simp_all [J.isDict, J.setKey, J.getOpt, lookupF_setF_self]

theorem getOpt_setKey_other (d : J) (k k' : String) (v : J) (h : k ≠ k') :
    (d.setKey k v).getOpt k' = d.getOpt k' := by
  cases d <;> simp [J.setKey, J.getOpt, lookupF_setF_other _ _ _ _ h]

theorem getOpt_eraseKey_self (d : J) (k : String) :
    (d.eraseKey k).getOpt k = none := by
  cases d <;> simp [J.eraseKey, J.getOpt, lookupF_eraseF_self]

theorem getOpt_eraseKey_other (d : J) (k k' : String) (h : k ≠ k') :
    (d.eraseKey k).getOpt k' = d.getOpt k' := by
  cases d <;> simp [J.eraseKey, J.getOpt, lookupF_eraseF_other _ _ _ h]

theorem isDict_setKey (d : J) (k : String) (v : J) (hd : d.isDict = true) :
    (d.setKey k v).isDict = true := by
  cases d <;> simp_all [J.isDict, J.setKey]

theorem isDict_eraseKey (d : J) (k : String) (hd : d.isDict = true) :
    (d.eraseKey k).isDict = true := by
  cases d <;> simp_all [J.isDict, J.eraseKey]

theorem eraseKey_noop (d : J) (k : String) (h : d.getOpt k = none) :
    d.eraseKey k = d := by
  cases d <;> simp_all [J.getOpt, J.eraseKey, eraseF_of_lookup_none]

theorem setKey_setKey (d : J) (k : String) (v w : J) :
    (d.setKey k v).setKey k w = d.setKey k w := by
  cases d <;> simp [J.setKey, setF_setF]

theorem isDict_exists_fields (d : J) (hd : d.isDict = true) :
    ∃ gs, d = J.obj gs := by
  cases d <;> simp_all [J.isDict]

/-! Idempotence of the recursive cache-control removal. -/

mutual

theorem removeCC_idem : (j : J) →
    remove_cache_control (remove_cache_control j) = remove_cache_control j
  | .null => rfl
  | .bool _ => rfl
  | .num _ => rfl
  | .str _ => rfl
  | .arr xs => by simp [remove_cache_control, removeCCList_idem xs]
  | .obj fs => by simp [remove_cache_control, removeCCFields_idem fs]

theorem removeCCFields_idem : (fs : List (String × J)) →
    removeCCFields (removeCCFields fs) = removeCCFields fs
  | [] => rfl
  | (k, v) :: rest => by
      by_cases h : k = "cache_control"
      · simp [removeCCFields, h, removeCCFields_idem rest]
      · simp [removeCCFields, h, removeCC_idem v, removeCCFields_idem rest]

theorem removeCCList_idem : (xs : List J) →
    removeCCList (removeCCList xs) = removeCCList xs
  | [] => rfl
  | x :: xs => by simp [removeCCList, removeCC_idem x, removeCCList_idem xs]

end

/-! The stripped output is free of cache-control keys. -/

mutual

theorem ccFree_removeCC : (j : J) → ccFree (remove_cache_control j) = true
  | .null => rfl
  | .bool _ => rfl
  | .num _ => rfl
  | .str _ => rfl
  | .arr xs => by simp [remove_cache_control, ccFree, ccFreeList_removeCC xs]
  | .obj fs => by simp [remove_cache_control, ccFree, ccFreeFields_removeCC fs]

theorem ccFreeFields_removeCC : (fs : List (String × J)) →
    ccFreeFields (removeCCFields fs) = true
  | [] => rfl
  | (k, v) :: rest => by
      by_cases h : k = "cache_control"
      · simp [removeCCFields, h, ccFreeFields_removeCC rest]
      · simp [removeCCFields, h, ccFreeFields, ccFree_removeCC v,
              ccFreeFields_removeCC rest]

theorem ccFreeList_removeCC : (xs : List J) →
    ccFreeList (removeCCList xs) = true
  | [] => rfl
  | x :: xs => by simp [removeCCList, ccFreeList, ccFree_removeCC x,
                        ccFreeList_removeCC xs]

end

theorem ccFree_of_isStr (u : J) (h : u.isStr = true) : ccFree u = true := by
  cases u <;> simp_all [J.isStr, ccFree]

/-! Lemmas about the blocked-parameter erasure fold. -/

theorem getOpt_foldl_erase_none (L : List String) (d : J) (k : String)
    (h : d.getOpt k = none) :
    (L.foldl (fun d q => d.eraseKey q) d).getOpt k = none := by
  induction L generalizing d with
  | nil => simpa using h
  | cons q rest ih =>
      simp only [List.foldl_cons]
      apply ih
      by_cases hq : q = k
      · subst hq
        exact getOpt_eraseKey_self d q
      · rw [getOpt_eraseKey_other d q k hq]
        exact h

theorem getOpt_foldl_erase_mem (L : List String) (d : J) (p : String)
    (hp : p ∈ L) :
    (L.foldl (fun d q => d.eraseKey q) d).getOpt p = none := by
  induction L generalizing d with
  | nil => cases hp
  | cons q rest ih =>
      simp only [List.foldl_cons]
      rcases List.mem_cons.mp hp with h | h
      · subst h
        exact getOpt_foldl_erase_none rest _ p (getOpt_eraseKey_self d p)
      · exact ih _ h

theorem getOpt_foldl_erase_not_mem (L : List String) (d : J) (k : String)
    (hk : k ∉ L) :
    (L.foldl (fun d q => d.eraseKey q) d).getOpt k = d.getOpt k := by
  induction L generalizing d with
  | nil => rfl
  | cons q rest ih =>
      simp only [List.foldl_cons]
      rw [ih _ (fun h => hk (List.mem_cons_of_mem q h))]
      exact getOpt_eraseKey_other d q k (fun h => hk (h ▸ List.mem_cons_self q rest))

theorem isDict_foldl_erase (L : List String) (d : J) (hd : d.isDict = true) :
    (L.foldl (fun d q => d.eraseKey q) d).isDict = true := by
  induction L generalizing d with
  | nil => simpa using hd
  | cons q rest ih =>
      simp only [List.foldl_cons]
      exact ih _ (isDict_eraseKey d q hd)

theorem foldl_erase_noop (L : List String) (d : J)
    (h : ∀ q ∈ L, d.getOpt q = none) :
    L.foldl (fun d q => d.eraseKey q) d = d := by
  induction L with
  | nil => rfl
  | cons q rest ih =>
      simp only [List.foldl_cons]
      rw [eraseKey_noop d q (h q (List.mem_cons_self q rest))]
      exact ih (fun q hq => h q (List.mem_cons_of_mem _ hq))

theorem blocked_ne_system : ∀ q ∈ BLOCKED_PARAMS, q ≠ "system" := by decide

theorem blocked_ne_messages : ∀ q ∈ BLOCKED_PARAMS, q ≠ "messages" := by decide

/-! Characterization of the field-stripping stage. -/

theorem stripFields_fix (d : J) : stripFields (stripFields d) = stripFields d := by
  cases d with
  | obj fs =>
      have hEdict : ((BLOCKED_PARAMS.foldl (fun d q => d.eraseKey q) (J.obj fs))).isDict = true :=
        isDict_foldl_erase _ _ rfl
      cases hsys : (BLOCKED_PARAMS.foldl (fun d q => d.eraseKey q) (J.obj fs)).getOpt "system" with
      | none =>
          have h1 : stripFields (J.obj fs) =
              BLOCKED_PARAMS.foldl (fun d q => d.eraseKey q) (J.obj fs) := by
            simp only [stripFields]
            rw [hsys]
          rw [h1]
          obtain ⟨gs, hgs⟩ := isDict_exists_fields _ hEdict
          have hnone : ∀ q ∈ BLOCKED_PARAMS, (J.obj gs).getOpt q = none := by
            intro q hq
            rw [← hgs]
            exact getOpt_foldl_erase_mem _ _ _ hq
          have hfold : BLOCKED_PARAMS.foldl (fun d q => d.eraseKey q) (J.obj gs) = J.obj gs :=
            foldl_erase_noop _ _ hnone
          have hsys2 : (J.obj gs).getOpt "system" = none := by rw [← hgs]; exact hsys
          rw [hgs]
          simp only [stripFields]
          rw [hfold, hsys2]
      | some v =>
          have h1 : stripFields (J.obj fs) =
              (BLOCKED_PARAMS.foldl (fun d q => d.eraseKey q) (J.obj fs)).setKey "system"
                (remove_cache_control v) := by
            simp only [stripFields]
            rw [hsys]
          rw [h1]
          have hrdict := isDict_setKey _ "system" (remove_cache_control v) hEdict
          obtain ⟨gs, hgs⟩ := isDict_exists_fields _ hrdict
          have hnone : ∀ q ∈ BLOCKED_PARAMS, (J.obj gs).getOpt q = none := by
            intro q hq
            rw [← hgs, getOpt_setKey_other _ _ _ _ (Ne.symm (blocked_ne_system q hq))]
            exact getOpt_foldl_erase_mem _ _ _ hq
          have hfold : BLOCKED_PARAMS.foldl (fun d q => d.eraseKey q) (J.obj gs) = J.obj gs :=
            foldl_erase_noop _ _ hnone
          have hsysr : (J.obj gs).getOpt "system" = some (remove_cache_control v) := by
            rw [← hgs]
            exact getOpt_setKey_self _ _ _ hEdict
          rw [hgs]
          simp only [stripFields]
          rw [hfold, hsysr]
          show (J.obj gs).setKey "system" (remove_cache_control (remove_cache_control v)) =
            J.obj gs
          rw [removeCC_idem v, ← hgs]
          exact setKey_setKey _ _ _ _
  | null => rfl
  | bool b => rfl
  | num n => rfl
  | str s => rfl
  | arr xs => rfl

theorem stripFields_getOpt_blocked (d : J) (p : String) (hp : p ∈ BLOCKED_PARAMS) :
    (stripFields d).getOpt p = none := by
  cases d with
  | obj fs =>
      cases hsys : (BLOCKED_PARAMS.foldl (fun d q => d.eraseKey q) (J.obj fs)).getOpt "system" with
      | none =>
          have h1 : stripFields (J.obj fs) =
              BLOCKED_PARAMS.foldl (fun d q => d.eraseKey q) (J.obj fs) := by
            simp only [stripFields]
            rw [hsys]
          rw [h1]
          exact getOpt_foldl_erase_mem _ _ _ hp
      | some v =>
          have h1 : stripFields (J.obj fs) =
              (BLOCKED_PARAMS.foldl (fun d q => d.eraseKey q) (J.obj fs)).setKey "system"
                (remove_cache_control v) := by
            simp only [stripFields]
            rw [hsys]
          rw [h1, getOpt_setKey_other _ _ _ _ (Ne.symm (blocked_ne_system p hp))]
          exact getOpt_foldl_erase_mem _ _ _ hp
  | null => rfl
  | bool b => rfl
  | num n => rfl
  | str s => rfl
  | arr xs => rfl

theorem stripFields_getOpt_unblocked (d : J) (k : String)
    (hk : k ∉ BLOCKED_PARAMS) (hsysk : k ≠ "system") :
    (stripFields d).getOpt k = d.getOpt k := by
  cases d with
  | obj fs =>
      cases hsys : (BLOCKED_PARAMS.foldl (fun d q => d.eraseKey q) (J.obj fs)).getOpt "system" with
      | none =>
          have h1 : stripFields (J.obj fs) =
              BLOCKED_PARAMS.foldl (fun d q => d.eraseKey q) (J.obj fs) := by
            simp only [stripFields]
            rw [hsys]
          rw [h1]
          exact getOpt_foldl_erase_not_mem _ _ _ hk
      | some v =>
          have h1 : stripFields (J.obj fs) =
              (BLOCKED_PARAMS.foldl (fun d q => d.eraseKey q) (J.obj fs)).setKey "system"
                (remove_cache_control v) := by
            simp only [stripFields]
            rw [hsys]
          rw [h1, getOpt_setKey_other _ _ _ _ (Ne.symm hsysk)]
          exact getOpt_foldl_erase_not_mem _ _ _ hk
  | null => rfl
  | bool b => rfl
  | num n => rfl
  | str s => rfl
  | arr xs => rfl

theorem stripFields_getOpt_system (d : J) :
    (stripFields d).getOpt "system" = (d.getOpt "system").map remove_cache_control := by
  cases d with
  | obj fs =>
      have hEdict : ((BLOCKED_PARAMS.foldl (fun d q => d.eraseKey q) (J.obj fs))).isDict = true :=
        isDict_foldl_erase _ _ rfl
      have hEsys : (BLOCKED_PARAMS.foldl (fun d q => d.eraseKey q) (J.obj fs)).getOpt "system" =
          (J.obj fs).getOpt "system" :=
        getOpt_foldl_erase_not_mem _ _ _ (by decide)
      cases hsys : (BLOCKED_PARAMS.foldl (fun d q => d.eraseKey q) (J.obj fs)).getOpt "system" with
      | none =>
          have h1 : stripFields (J.obj fs) =
              BLOCKED_PARAMS.foldl (fun d q => d.eraseKey q) (J.obj fs) := by
            simp only [stripFields]
            rw [hsys]
          rw [h1, hsys, ← hEsys, hsys]
          rfl
      | some v =>
          have h1 : stripFields (J.obj fs) =
              (BLOCKED_PARAMS.foldl (fun d q => d.eraseKey q) (J.obj fs)).setKey "system"
                (remove_cache_control v) := by
            simp only [stripFields]
            rw [hsys]
          rw [h1, getOpt_setKey_self _ _ _ hEdict, ← hEsys, hsys]
          rfl
  | null => rfl
  | bool b => rfl
  | num n => rfl
  | str s => rfl
  | arr xs => rfl

theorem stripFields_isDict (fs : List (String × J)) :
    (stripFields (J.obj fs)).isDict = true := by
  have hEdict : ((BLOCKED_PARAMS.foldl (fun d q => d.eraseKey q) (J.obj fs))).isDict = true :=
    isDict_foldl_erase _ _ rfl
  cases hsys : (BLOCKED_PARAMS.foldl (fun d q => d.eraseKey q) (J.obj fs)).getOpt "system" with
  | none =>
      have h1 : stripFields (J.obj fs) =
          BLOCKED_PARAMS.foldl (fun d q => d.eraseKey q) (J.obj fs) := by
        simp only [stripFields]
        rw [hsys]
      rw [h1]
      exact hEdict
  | some v =>
      have h1 : stripFields (J.obj fs) =
          (BLOCKED_PARAMS.foldl (fun d q => d.eraseKey q) (J.obj fs)).setKey "system"
            (remove_cache_control v) := by
        simp only [stripFields]
        rw [hsys]
      rw [h1]
      exact isDict_setKey _ _ _ hEdict

/-! Characterization of the whole request-body processing. -/

theorem process_request_body_cases (d out : J)
    (h : process_request_body d = some out) :
    ∃ fs, d = J.obj fs ∧
      ((stripFields d).getOpt "messages" = none ∧ out = stripFields d ∨
       ∃ ms ms2, (stripFields d).getOpt "messages" = some (.arr ms) ∧
         clean_messages ms = some ms2 ∧
         out = (stripFields d).setKey "messages" (.arr ms2)) := by
  cases d with
  | obj fs =>
      refine ⟨fs, rfl, ?_⟩
      simp only [process_request_body] at h
      cases hm : (stripFields (J.obj fs)).getOpt "messages" with
      | none =>
          rw [hm] at h
          simp at h
          exact Or.inl ⟨rfl, h.symm⟩
      | some v =>
          rw [hm] at h
          cases v with
          | arr ms =>
              simp at h
              obtain ⟨ms2, hc, hout⟩ := h
              exact Or.inr ⟨ms, ms2, rfl, hc, hout.symm⟩
          | null => simp at h
          | bool b => simp at h
          | num n => simp at h
          | str s => simp at h
          | obj gs => simp at h
  | null => simp [process_request_body] at h
  | bool b => simp [process_request_body] at h
  | num n => simp [process_request_body] at h
  | str s => simp [process_request_body] at h
  | arr xs => simp [process_request_body] at h

/-- C4 counterexample: the body consisting of a single opening brace is not
valid JSON, and the proxy answers it locally with a 500 error instead of
forwarding a near-empty request, contrary to the claim that malformed
bodies are treated as an empty mapping and forwarded. -/
theorem c4_invalid_json_not_forwarded :
    parseJson "\x7b" = none ∧ handlePost "\x7b" = PostOutcome.localError :=
  ⟨rfl, rfl⟩

/-- C4 (amended): an empty POST body is treated as the empty mapping and
forwarded; a nonempty body that is not valid JSON raises inside the try
block and is answered locally with a 500 error, not forwarded. -/
theorem c4_empty_body_forwarded_invalid_errors :
    handlePost "" = PostOutcome.forwarded (J.obj []) ∧
    ∀ body : String, body ≠ "" → parseJson body = none →
      handlePost body = PostOutcome.localError := by
  refine ⟨rfl, ?_⟩
  intro body hne hparse
  simp only [handlePost, if_neg hne, hparse]

/-- Witness for the amended C4 at the concrete body `not json`. -/
theorem c4_witness : handlePost "not json" = PostOutcome.localError :=
  c4_empty_body_forwarded_invalid_errors.2 "not json" (by decide) rfl

/-- C5: every blocked parameter present at the top level is absent from the
rewritten envelope, and every other top-level field not named `system` or
`messages` is preserved verbatim. -/
theorem c5_blocked_removed_passthrough_preserved
    (fs : List (String × J)) (out : J)
    (h : process_request_body (.obj fs) = some out) :
    (∀ p ∈ BLOCKED_PARAMS, out.getOpt p = none) ∧
    (∀ k, k ∉ BLOCKED_PARAMS → k ≠ "system" → k ≠ "messages" →
      out.getOpt k = (J.obj fs).getOpt k) := by
  obtain ⟨fs2, hfs2, hcases⟩ := process_request_body_cases _ _ h
  constructor
  · intro p hp
    rcases hcases with ⟨hm, hout⟩ | ⟨ms, ms2, hm, hc, hout⟩
    · rw [hout]
      exact stripFields_getOpt_blocked _ _ hp
    · rw [hout, getOpt_setKey_other _ _ _ _ (Ne.symm (blocked_ne_messages p hp))]
      exact stripFields_getOpt_blocked _ _ hp
  · intro k hk hks hkm
    rcases hcases with ⟨hm, hout⟩ | ⟨ms, ms2, hm, hc, hout⟩
    · rw [hout]
      exact stripFields_getOpt_unblocked _ _ hk hks
    · rw [hout, getOpt_setKey_other _ _ _ _ (Ne.symm hkm)]
      exact stripFields_getOpt_unblocked _ _ hk hks

/-- Witness for C5 at a concrete envelope holding a passthrough field
`model`, blocked fields and a messages list. -/
theorem c5_witness :
    exEnvC5Out.getOpt "tool_choice" = none ∧
    exEnvC5Out.getOpt "model" = (J.obj exEnvC5Fields).getOpt "model" := by
  have h := c5_blocked_removed_passthrough_preserved exEnvC5Fields exEnvC5Out rfl
  exact ⟨h.1 "tool_choice" (by decide), h.2 "model" (by decide) (by decide) (by decide)⟩

/-- C6: applying the field stripper together with the recursive
`cache_control` removal twice to any envelope yields the same result as
applying it once. -/
theorem c6_stripping_idempotent (data : J) :
    stripFields (stripFields data) = stripFields data ∧
    remove_cache_control (remove_cache_control data) = remove_cache_control data :=
  ⟨stripFields_fix data, removeCC_idem data⟩

/-! Lemmas about the per-message scan. -/

theorem cleanStep_nondict (p : List J) (j : J) (h : j.isDict = false) :
    cleanStep p j = some ([j], p) := by
  simp [cleanStep, h]

theorem cleanMessagesAux_cons (p : List J) (m : J) (ms : List J) :
    cleanMessagesAux p (m :: ms) =
      (cleanStep p m).bind (fun r =>
        (cleanMessagesAux r.2 ms).map (fun r2 => (r.1 ++ r2.1, r2.2))) := by
  simp only [cleanMessagesAux]
  cases hc : cleanStep p m with
  | none => simp
  | some r =>
      obtain ⟨o, p2⟩ := r
      cases ha : cleanMessagesAux p2 ms <;> simp [ha]

theorem cleanStep_user (p : List J) (msg : J) (items : List J)
    (hd : msg.isDict = true)
    (hrole : msg.getD "role" (.str "") = .str "user")
    (hcontent : msg.getD "content" .null = .arr items) :
    cleanStep p msg =
      (processUserItems p items).map (fun r =>
        ((if r.1.isEmpty then [] else [msg.setKey "content" (.arr r.1)]) ++ r.2, [])) := by
  simp only [cleanStep, hd, if_true]
  rw [hrole, hcontent]
  simp only [jStrEq]
  cases hPU : processUserItems p items with
  | none => simp
  | some r => simp

theorem processUserItems_append (p : List J) (xs ys : List J) :
    processUserItems p (xs ++ ys) =
      (processUserItems p xs).bind (fun a =>
        (processUserItems p ys).map (fun b => (a.1 ++ b.1, a.2 ++ b.2))) := by
  induction xs with
  | nil => cases h : processUserItems p ys <;> simp [processUserItems, h]
  | cons it rest ih =>
      simp only [processUserItems, List.cons_append]
      cases hu : userItem p it with
      | none => simp
      | some ab =>
          cases h1 : processUserItems p rest <;>
            cases h2 : processUserItems p ys <;>
              simp [hu, ih, h1, h2, List.append_assoc]

theorem userItem_orphan (p : List J) (b : J) (hd : b.isDict = true)
    (ht : isType b "tool_result" = true)
    (hm : setMem (b.getD "tool_use_id" (.str "")) p = false)
    (hsucc : (userItem p b).isSome = true) :
    userItem p b = some ([], []) := by
  simp only [userItem, hd, if_true, ht] at *
  cases hh : hashableJ (b.getD "tool_use_id" (.str "")) with
  | false => simp [hh] at hsucc
  | true => simp [hh, hm]

theorem processUserItems_drop_orphan (p : List J) (pre post : List J) (b : J)
    (hd : b.isDict = true) (ht : isType b "tool_result" = true)
    (hm : setMem (b.getD "tool_use_id" (.str "")) p = false)
    (hsucc : (processUserItems p (pre ++ b :: post)).isSome = true) :
    processUserItems p (pre ++ post) = processUserItems p (pre ++ b :: post) := by
  rw [processUserItems_append, processUserItems_append]
  cases hpre : processUserItems p pre with
  | none => simp
  | some aPre =>
      have hbsucc : (userItem p b).isSome = true := by
        rw [processUserItems_append, hpre] at hsucc
        simp only [processUserItems] at hsucc
        cases hb : userItem p b with
        | none => rw [hb] at hsucc; simp at hsucc
        | some ab => rfl
      have hdrop := userItem_orphan p b hd ht hm hbsucc
      simp only [processUserItems]
      rw [hdrop]
      cases hpost : processUserItems p post <;> simp

/-- C2 counterexample: after the assistant introduces tool id `a`, a first
user message whose content is a plain string leaves the pending set
unchanged, so the `tool_result` for `a` inside the second user message is
converted rather than dropped — contradicting both the unconditional-clear
sentence and the drop-regardless-of-form consequence. -/
theorem c2_counterexample :
    cleanStep exPendingA exUserStr = some ([exUserStr], exPendingA) ∧
    clean_messages [exAssistant, exUserStr, exUser] =
      some [exAssistantOut, exUserStr, exToolMsg] :=
  ⟨rfl, rfl⟩

/-- C2 (amended): the pending-tool-id set is cleared after processing a
user message whose content is a list; consequently a `tool_result` for `a`
in the second of two consecutive user messages is dropped when the first
user message carries list content, but is converted when the first user
message carries plain-string content. -/
theorem c2_pending_cleared_for_list_content :
    (∀ (pending : List J) (msg : J) (items out p2 : List J),
       msg.isDict = true →
       msg.getD "role" (.str "") = .str "user" →
       msg.getD "content" .null = .arr items →
       cleanStep pending msg = some (out, p2) →
       p2 = []) ∧
    clean_messages [exAssistant, exUserText, exUser] =
      some [exAssistantOut, exUserText] ∧
    clean_messages [exAssistant, exUserStr, exUser] =
      some [exAssistantOut, exUserStr, exToolMsg] := by
  refine ⟨?_, rfl, rfl⟩
  intro pending msg items out p2 hd hrole hcontent hstep
  rw [cleanStep_user pending msg items hd hrole hcontent] at hstep
  cases hPU : processUserItems pending items with
  | none => rw [hPU] at hstep; simp at hstep
  | some r =>
      rw [hPU] at hstep
      simp at hstep
      exact hstep.2

/-- Witness for the amended C2 at a concrete list-content user message. -/
theorem c2_witness :
    cleanStep exPendingA exUserText = some ([exUserText], []) ∧ ([] : List J) = [] :=
  ⟨rfl, c2_pending_cleared_for_list_content.1 exPendingA exUserText [exTextBlock]
    [exUserText] [] rfl rfl rfl rfl⟩

/-- C3: an orphaned `tool_result` block (id not in the pending set)
contributes nothing to the user turn; a user message left with no content
blocks contributes no message, while converted tool messages are still
appended after the (possibly dropped) user message. -/
theorem c3_orphans_dropped_tools_appended
    (pending : List J) (msg : J) (items out p2 : List J)
    (hd : msg.isDict = true)
    (hrole : msg.getD "role" (.str "") = .str "user")
    (hcontent : msg.getD "content" .null = .arr items)
    (hstep : cleanStep pending msg = some (out, p2)) :
    (∀ pre b post, items = pre ++ b :: post →
       b.isDict = true → isType b "tool_result" = true →
       setMem (b.getD "tool_use_id" (.str "")) pending = false →
       processUserItems pending (pre ++ post) = processUserItems pending items) ∧
    ∀ nc tms, processUserItems pending items = some (nc, tms) →
      (nc = [] → out = tms) ∧
      (nc ≠ [] → out = msg.setKey "content" (.arr nc) :: tms) := by
  rw [cleanStep_user pending msg items hd hrole hcontent] at hstep
  constructor
  · intro pre b post hitems hbd hbt hborphan
    subst hitems
    apply processUserItems_drop_orphan pending pre post b hbd hbt hborphan
    cases hPU : processUserItems pending (pre ++ b :: post) with
    | none => rw [hPU] at hstep; simp at hstep
    | some r => rfl
  · intro nc tms hPU
    rw [hPU] at hstep
    simp at hstep
    constructor
    · intro hnc
      subst hnc
      rw [← hstep.1]
      simp
    · intro hnc
      rw [← hstep.1]
      rw [if_neg (by simpa using hnc)]
      simp

/-- Witness for C3 at a concrete user message holding only an orphaned
`tool_result` for the never-introduced id `z`. -/
theorem c3_witness :
    processUserItems exPendingA ([] ++ []) = processUserItems exPendingA [exToolResultZ] := by
  have h := c3_orphans_dropped_tools_appended exPendingA exUserOrphan [exToolResultZ]
    [] [] rfl rfl rfl rfl
  exact h.1 [] exToolResultZ [] rfl rfl rfl rfl

/-- C10: an element of the messages list that is not a dict is appended to
the output unchanged, in its original relative position, and leaves the
pending-tool-id set unchanged for the rest of the scan. -/
theorem c10_nondict_passthrough (p pre post : List J) (j : J) (o1 p1 : List J)
    (hj : j.isDict = false)
    (hpre : cleanMessagesAux p pre = some (o1, p1)) :
    cleanStep p1 j = some ([j], p1) ∧
    cleanMessagesAux p (pre ++ j :: post) =
      (cleanMessagesAux p1 post).map (fun r => (o1 ++ j :: r.1, r.2)) := by
  refine ⟨cleanStep_nondict p1 j hj, ?_⟩
  induction pre generalizing p o1 with
  | nil =>
      simp only [cleanMessagesAux] at hpre
      injection hpre with hpre
      injection hpre with h1 h2
      subst h1
      subst h2
      rw [List.nil_append, cleanMessagesAux_cons, cleanStep_nondict p j hj,
        Option.some_bind]
      cases hrest : cleanMessagesAux p post with
      | none => simp
      | some r => simp
  | cons m pre2 ih =>
      rw [cleanMessagesAux_cons] at hpre
      cases hc : cleanStep p m with
      | none => rw [hc] at hpre; simp at hpre
      | some r =>
          obtain ⟨o, pmid⟩ := r
          rw [hc, Option.some_bind] at hpre
          cases ha : cleanMessagesAux pmid pre2 with
          | none =>
              rw [ha] at hpre
              simp at hpre
          | some r2 =>
              obtain ⟨o2, pfin⟩ := r2
              rw [ha] at hpre
              simp only [Option.map_some', Option.some.injEq, Prod.mk.injEq] at hpre
              obtain ⟨h1, h2⟩ := hpre
              subst h2
              subst h1
              rw [List.cons_append, cleanMessagesAux_cons, hc, Option.some_bind,
                ih pmid o2 ha]
              cases hrest : cleanMessagesAux pfin post with
              | none => simp
              | some rr => simp [List.append_assoc]

/-! Lemmas for the assistant branch and the pending-id extraction. -/

theorem processAssistant_tool_calls (msg : J) (items : List J) (item : J)
    (out p2 : List J)
    (hd : msg.isDict = true)
    (hcontent : msg.getD "content" .null = .arr items)
    (hmem : item ∈ items) (hitem : item.isDict = true)
    (hty : isType item "tool_use" = true)
    (hstep : processAssistant msg = some (out, p2)) :
    ∃ m tcs, out = [m] ∧ m.getOpt "tool_calls" = some (.arr tcs) ∧
      convert_tool_use_to_openai item ∈ tcs := by
  simp only [processAssistant] at hstep
  cases hex : extract_tool_use_ids msg with
  | none => rw [hex] at hstep; simp at hstep
  | some pend =>
      rw [hex] at hstep
      simp only [Option.bind_eq_bind', Option.some_bind, hcontent] at hstep
      have hmem2 : convert_tool_use_to_openai item ∈
          items.filterMap (fun it =>
            if it.isDict && isType it "tool_use" then some (convert_tool_use_to_openai it)
            else none) :=
        List.mem_filterMap.mpr ⟨item, hmem, by simp [hitem, hty]⟩
      have hne : (items.filterMap (fun it =>
          if it.isDict && isType it "tool_use" then some (convert_tool_use_to_openai it)
          else none)).isEmpty = false := by
        cases hl : items.filterMap (fun it =>
            if it.isDict && isType it "tool_use" then some (convert_tool_use_to_openai it)
            else none) with
        | nil => rw [hl] at hmem2; simp at hmem2
        | cons a l => simp
      rw [hne] at hstep
      have hgot : ∀ X : J,
          ((msg.setKey "tool_calls"
            (.arr (items.filterMap (fun it =>
              if it.isDict && isType it "tool_use" then some (convert_tool_use_to_openai it)
              else none)))).setKey "content" X).getOpt "tool_calls" =
          some (.arr (items.filterMap (fun it =>
            if it.isDict && isType it "tool_use" then some (convert_tool_use_to_openai it)
            else none))) := by
        intro X
        rw [getOpt_setKey_other _ _ _ _ (by decide)]
        exact getOpt_setKey_self _ _ _ hd
      simp only [Bool.false_eq_true, if_false] at hstep
      split at hstep
      · injection hstep with hstep
        injection hstep with h1 h2
        exact ⟨_, _, h1.symm, hgot _, hmem2⟩
      · split at hstep
        · injection hstep with hstep
          injection hstep with h1 h2
          exact ⟨_, _, h1.symm, hgot _, hmem2⟩
        · cases hj : pyJoin " " _ with
          | none =>
              rw [hj] at hstep
              simp at hstep
          | some s =>
              rw [hj] at hstep
              simp only [Option.bind_eq_bind', Option.some_bind] at hstep
              injection hstep with hstep
              injection hstep with h1 h2
              exact ⟨_, _, h1.symm, hgot _, hmem2⟩

theorem setMem_append_right (v : J) (acc : List J) (w : J)
    (h : primEq v w = true) : setMem v (acc ++ [w]) = true := by
  simp [setMem, List.any_append, h]

theorem setMem_setInsert (v w : J) (acc : List J)
    (hv : setMem v acc = true) : setMem v (setInsert acc w) = true := by
  unfold setInsert
  split
  · exact hv
  · simp only [setMem, List.any_append] at *
    simp [hv]

theorem setMem_setInsert_self (v : J) (acc : List J) (hp : primEq v v = true) :
    setMem v (setInsert acc v) = true := by
  unfold setInsert
  split
  · assumption
  · exact setMem_append_right v acc v hp

theorem addId_mono (acc : List J) (tid v : J) (acc2 : List J)
    (h : addId acc tid = some acc2) (hv : setMem v acc = true) :
    setMem v acc2 = true := by
  simp only [addId] at h
  split at h
  · split at h
    · injection h with h
      rw [← h]
      exact setMem_setInsert v tid acc hv
    · cases h
  · injection h with h
    rw [← h]
    exact hv

theorem addId_mem (acc : List J) (tid : J) (acc2 : List J)
    (h : addId acc tid = some acc2) (htr : pyTruthy tid = true)
    (hp : primEq tid tid = true) : setMem tid acc2 = true := by
  simp only [addId, htr, if_true] at h
  cases hh : hashableJ tid with
  | false => rw [hh] at h; simp at h
  | true =>
      rw [hh] at h
      simp only [if_true] at h
      injection h with h
      rw [← h]
      exact setMem_setInsert_self tid acc hp

theorem extractFromCalls_mono (calls : List J) : ∀ (acc out : List J) (v : J),
    extractFromCalls acc calls = some out → setMem v acc = true →
    setMem v out = true := by
  induction calls with
  | nil =>
      intro acc out v h hv
      simp only [extractFromCalls] at h
      injection h with h
      rw [← h]
      exact hv
  | cons c rest ih =>
      intro acc out v h hv
      simp only [extractFromCalls] at h
      split at h
      · cases ha : addId acc (c.getD "id" .null) with
        | none => rw [ha] at h; cases h
        | some acc2 =>
            rw [ha] at h
            exact ih acc2 out v h (addId_mono acc _ v acc2 ha hv)
      · exact ih acc out v h hv

theorem extractFromCalls_mem (calls : List J) : ∀ (acc out : List J) (tc : J) (s : String),
    extractFromCalls acc calls = some out → tc ∈ calls → tc.isDict = true →
    tc.getD "id" .null = .str s → s ≠ "" → setMem (.str s) out = true := by
  induction calls with
  | nil => intro acc out tc s h hmem; cases hmem
  | cons c rest ih =>
      intro acc out tc s h hmem hdict hid hs
      rcases List.mem_cons.mp hmem with hcase | hcase
      · subst hcase
        simp only [extractFromCalls, hdict, if_true] at h
        rw [hid] at h
        cases ha : addId acc (.str s) with
        | none => rw [ha] at h; cases h
        | some acc2 =>
            rw [ha] at h
            have hmemacc2 : setMem (.str s) acc2 = true :=
              addId_mem acc (.str s) acc2 ha (by simp [pyTruthy, hs]) (by simp [primEq])
            exact extractFromCalls_mono rest acc2 out (.str s) h hmemacc2
      · simp only [extractFromCalls] at h
        split at h
        · cases ha : addId acc (c.getD "id" .null) with
          | none => rw [ha] at h; cases h
          | some acc2 => rw [ha] at h; exact ih acc2 out tc s h hcase hdict hid hs
        · exact ih acc out tc s h hcase hdict hid hs

/-- C1: for every assistant message whose content list contains a
`tool_use` block, the rewritten assistant message carries a corresponding
`tool_calls` entry; the entry has the shape
`{id, type: function, function: {name, arguments}}` with `arguments` the
JSON serialization of `input` when it is an object and its direct
stringification otherwise; and the concrete round trip of the claim
produces exactly the claimed rewritten sequence. -/
theorem c1_tool_use_round_trip :
    (∀ (pending : List J) (msg : J) (items : List J) (item : J) (out p2 : List J),
       msg.isDict = true →
       msg.getD "role" (.str "") = .str "assistant" →
       msg.getD "content" .null = .arr items →
       item ∈ items → item.isDict = true → isType item "tool_use" = true →
       cleanStep pending msg = some (out, p2) →
       ∃ m tcs, out = [m] ∧ m.getOpt "tool_calls" = some (.arr tcs) ∧
         convert_tool_use_to_openai item ∈ tcs) ∧
    (∀ tool_use : J,
       convert_tool_use_to_openai tool_use =
         .obj [("id", tool_use.getD "id" (.str "")),
               ("type", .str "function"),
               ("function", .obj [("name", tool_use.getD "name" (.str "")),
                 ("arguments", .str
                   (if (tool_use.getD "input" (.obj [])).isDict
                    then dumps (tool_use.getD "input" (.obj []))
                    else pyStr (tool_use.getD "input" (.obj []))))])]) ∧
    clean_messages [exAssistant, exUser] = some [exAssistantOut, exToolMsg] := by
  refine ⟨?_, fun _ => rfl, rfl⟩
  intro pending msg items item out p2 hd hrole hcontent hmem hitem hty hstep
  have hstep2 : processAssistant msg = some (out, p2) := by
    simp only [cleanStep, hd, if_true] at hstep
    rw [hrole] at hstep
    simpa [jStrEq] using hstep
  exact processAssistant_tool_calls msg items item out p2 hd hcontent hmem hitem hty hstep2

/-- Witness for C1 at the concrete assistant message of the claim. -/
theorem c1_witness :
    ∃ m tcs, [exAssistantOut] = [m] ∧ m.getOpt "tool_calls" = some (.arr tcs) ∧
      convert_tool_use_to_openai exToolUse ∈ tcs :=
  c1_tool_use_round_trip.1 [] exAssistant [exToolUse] exToolUse [exAssistantOut]
    [J.str "a"] rfl rfl rfl (List.mem_singleton.mpr rfl) rfl rfl rfl

/-- C9: when the immediately preceding assistant message already carries an
OpenAI-style `tool_calls` array, those ids enter the pending set, so a
matching `tool_result` in the next user message is converted to a
`role: tool` message rather than dropped. -/
theorem c9_tool_calls_ids_pending :
    (∀ (msg : J) (calls : List J) (tc : J) (s : String) (out : List J),
       msg.getD "tool_calls" (.arr []) = .arr calls →
       tc ∈ calls → tc.isDict = true →
       tc.getD "id" .null = .str s → s ≠ "" →
       extract_tool_use_ids msg = some out →
       setMem (.str s) out = true) ∧
    clean_messages [exAsstOA, exUser] = some [exAsstOA, exToolMsg] := by
  refine ⟨?_, rfl⟩
  intro msg calls tc s out htc hmem hdict hid hs hex
  simp only [extract_tool_use_ids] at hex
  rw [htc] at hex
  split at hex
  · exact absurd hex (by simp)
  · exact extractFromCalls_mem calls _ out tc s hex hmem hdict hid hs

/-- Witness for C9 at the concrete OpenAI-style assistant message. -/
theorem c9_witness : setMem (.str "a") [J.str "a"] = true :=
  c9_tool_calls_ids_pending.1 exAsstOA [exTcOA] exTcOA "a" [J.str "a"] rfl
    (List.mem_singleton.mpr rfl) rfl rfl (by decide) rfl

/-- Witness for C10: a bare string between an assistant message and the end
of the list passes through at its position with the pending set intact. -/
theorem c10_witness :
    cleanStep [J.str "a"] (J.str "note") = some ([J.str "note"], [J.str "a"]) ∧
    cleanMessagesAux [] ([exAssistant] ++ (J.str "note") :: []) =
      (cleanMessagesAux [J.str "a"] []).map
        (fun r => ([exAssistantOut] ++ (J.str "note") :: r.1, r.2)) :=
  c10_nondict_passthrough [] [exAssistant] [] (J.str "note") [exAssistantOut]
    [J.str "a"] rfl rfl

theorem source_isDict_of_type (item : J) (t : String) (ht : ¬ t = "")
    (h : (item.getD "source" (.obj [])).getD "type" (.str "") = .str t) :
    (item.getD "source" (.obj [])).isDict = true := by
  cases hsv : item.getD "source" (J.obj []) with
  | obj fs => rfl
  | null =>
      rw [hsv] at h
      simp [J.getD, J.getOpt] at h
      exact absurd h.symm ht
  | bool b =>
      rw [hsv] at h
      simp [J.getD, J.getOpt] at h
      exact absurd h.symm ht
  | num n =>
      rw [hsv] at h
      simp [J.getD, J.getOpt] at h
      exact absurd h.symm ht
  | str s =>
      rw [hsv] at h
      simp [J.getD, J.getOpt] at h
      exact absurd h.symm ht
  | arr xs =>
      rw [hsv] at h
      simp [J.getD, J.getOpt] at h
      exact absurd h.symm ht

/-- C8 counterexample: an image block whose present `source` value is a
string (an unrecognized source shape) with a top-level `url` field is not
converted at all — `source.get` raises `AttributeError`, so the whole
request is answered with a local 500 instead of falling back to the
top-level url, contradicting the claim's fallback sentence. -/
theorem c8_counterexample :
    convert_image_to_openai exImgStrSource = none ∧
    process_request_body exEnvStrSource = none :=
  ⟨rfl, rfl⟩

/-- C8 (amended): base64 sources become a data URL; url sources pass the
url value through; an unrecognized source shape that is still a dict falls
back to the block's top-level `url` field; a present non-dict source value
instead makes the conversion raise (answered as a local 500); and the
claim's concrete base64 block converts to the claimed `image_url` block. -/
theorem c8_image_conversion :
    (∀ (item : J) (mt d : String),
       (item.getD "source" (.obj [])).getD "type" (.str "") = .str "base64" →
       (item.getD "source" (.obj [])).getD "media_type" (.str "image/png") = .str mt →
       (item.getD "source" (.obj [])).getD "data" (.str "") = .str d →
       convert_image_to_openai item =
         some (.obj [("type", .str "image_url"),
               ("image_url",
                .obj [("url", .str ("data:" ++ mt ++ ";base64," ++ d))])])) ∧
    (∀ (item u : J),
       (item.getD "source" (.obj [])).getD "type" (.str "") = .str "url" →
       (item.getD "source" (.obj [])).getD "url" (.str "") = u →
       convert_image_to_openai item =
         some (.obj [("type", .str "image_url"), ("image_url", .obj [("url", u)])])) ∧
    (∀ (item u : J),
       (item.getD "source" (.obj [])).isDict = true →
       jStrEq ((item.getD "source" (.obj [])).getD "type" (.str "")) "base64" = false →
       jStrEq ((item.getD "source" (.obj [])).getD "type" (.str "")) "url" = false →
       item.getOpt "url" = some u →
       convert_image_to_openai item =
         some (.obj [("type", .str "image_url"), ("image_url", .obj [("url", u)])])) ∧
    (∀ item : J,
       (item.getD "source" (.obj [])).isDict = false →
       convert_image_to_openai item = none) ∧
    convert_image_to_openai exImg64 = some exImg64Out := by
  refine ⟨?_, ?_, ?_, ?_, rfl⟩
  · intro item mt d h1 h2 h3
    have hs := source_isDict_of_type item "base64" (by decide) h1
    simp [convert_image_to_openai, hs, h1, h2, h3, jStrEq, pyStr]
  · intro item u h1 h2
    have hs := source_isDict_of_type item "url" (by decide) h1
    simp [convert_image_to_openai, hs, h1, h2, jStrEq]
  · intro item u hs h1 h2 hu
    simp [convert_image_to_openai, hs, h1, h2, hu]
  · intro item hs
    simp [convert_image_to_openai, hs]

/-- Witness for the amended C8 at the concrete unrecognized-dict-source
image block. -/
theorem c8_witness :
    convert_image_to_openai exImgUnknown =
      some (.obj [("type", .str "image_url"),
            ("image_url", .obj [("url", .str "http://img.example/x.png")])]) :=
  c8_image_conversion.2.2.1 exImgUnknown (.str "http://img.example/x.png")
    rfl rfl rfl rfl

/-! Lemmas for the amended C7: cache-control freedom of the rewritten
content blocks. -/

theorem convert_image_shape (it c : J) (h : convert_image_to_openai it = some c) :
    ∃ u, c = .obj [("type", .str "image_url"), ("image_url", .obj [("url", u)])] := by
  simp only [convert_image_to_openai] at h
  by_cases hs : (it.getD "source" (J.obj [])).isDict = true
  · rw [if_pos hs] at h
    by_cases h1 : jStrEq ((it.getD "source" (J.obj [])).getD "type" (J.str "")) "base64" = true
    · rw [if_pos h1] at h
      injection h with h
      exact ⟨_, h.symm⟩
    · rw [if_neg h1] at h
      by_cases h2 : jStrEq ((it.getD "source" (J.obj [])).getD "type" (J.str "")) "url" = true
      · rw [if_pos h2] at h
        injection h with h
        exact ⟨_, h.symm⟩
      · rw [if_neg h2] at h
        injection h with h
        exact ⟨_, h.symm⟩
  · rw [if_neg hs] at h
    cases h

theorem ccFree_convert_image (it c : J) (hc : convert_image_to_openai it = some c)
    (h : imageUrlOk it = true) : ccFree c = true := by
  obtain ⟨u, hu⟩ := convert_image_shape it c hc
  unfold imageUrlOk at h
  rw [hc] at h
  subst hu
  simp only [J.getD, J.getOpt, lookupF] at h
  simp only [ccFree, ccFreeFields, ccFreeList]
  simp [ccFree_of_isStr u (by simpa using h)]

theorem toolMsg_msgBlocksCCFree (tr tm : J)
    (h : convert_tool_result_to_openai tr = some tm) :
    msgBlocksCCFree tm = true := by
  simp only [convert_tool_result_to_openai] at h
  split at h
  · cases hj : pyJoin "\n" _ with
    | none => rw [hj] at h; simp at h
    | some c =>
        rw [hj] at h
        simp only [Option.map_some', Option.some.injEq] at h
        rw [← h]
        simp [msgBlocksCCFree, J.isDict, J.getD, J.getOpt, lookupF, blocksCCFree]
  · injection h with h
    rw [← h]
    simp [msgBlocksCCFree, J.isDict, J.getD, J.getOpt, lookupF, blocksCCFree]

theorem blockOk_removeCC (it : J) :
    (!(remove_cache_control it).isDict || ccFree (remove_cache_control it)) = true := by
  simp [ccFree_removeCC it]

theorem userItem_ccFree (p : List J) (it : J) (a b : List J)
    (h : userItem p it = some (a, b))
    (himg : (!(it.isDict && isType it "image") || imageUrlOk it) = true) :
    (∀ x ∈ a, (!x.isDict || ccFree x) = true) ∧
    (∀ t ∈ b, msgBlocksCCFree t = true) := by
  simp only [userItem] at h
  by_cases hdict : it.isDict = true
  · rw [if_pos hdict] at h
    by_cases htr : isType it "tool_result" = true
    · rw [if_pos htr] at h
      by_cases hh : hashableJ (it.getD "tool_use_id" (J.str "")) = true
      · rw [if_pos hh] at h
        by_cases hm : setMem (it.getD "tool_use_id" (J.str "")) p = true
        · rw [if_pos hm] at h
          cases hc : convert_tool_result_to_openai it with
          | none => rw [hc] at h; simp at h
          | some tm =>
              rw [hc] at h
              simp only [Option.map_some', Option.some.injEq, Prod.mk.injEq] at h
              obtain ⟨h1, h2⟩ := h
              subst h1
              subst h2
              constructor
              · intro x hx
                cases hx
              · intro t ht
                rw [List.mem_singleton.mp ht]
                exact toolMsg_msgBlocksCCFree it tm hc
        · rw [if_neg hm] at h
          injection h with h
          injection h with h1 h2
          subst h1
          subst h2
          constructor
          · intro x hx
            cases hx
          · intro t ht
            cases ht
      · rw [if_neg hh] at h
        cases h
    · rw [if_neg htr] at h
      by_cases him : isType it "image" = true
      · rw [if_pos him] at h
        cases hc : convert_image_to_openai it with
        | none => rw [hc] at h; simp at h
        | some c =>
            rw [hc] at h
            simp only [Option.map_some', Option.some.injEq, Prod.mk.injEq] at h
            obtain ⟨h1, h2⟩ := h
            subst h1
            subst h2
            constructor
            · intro x hx
              rw [List.mem_singleton.mp hx]
              have hok : imageUrlOk it = true := by
                simpa [hdict, him] using himg
              simp [ccFree_convert_image it c hc hok]
            · intro t ht
              cases ht
      · rw [if_neg him] at h
        injection h with h
        injection h with h1 h2
        subst h1
        subst h2
        constructor
        · intro x hx
          rw [List.mem_singleton.mp hx]
          exact blockOk_removeCC it
        · intro t ht
          cases ht
  · rw [if_neg hdict] at h
    injection h with h
    injection h with h1 h2
    subst h1
    subst h2
    constructor
    · intro x hx
      rw [List.mem_singleton.mp hx]
      have hfalse : it.isDict = false := by simpa using hdict
      simp [hfalse]
    · intro t ht
      cases ht

theorem processUserItems_ccFree (p : List J) (items : List J) :
    ∀ (nc tms : List J),
      processUserItems p items = some (nc, tms) →
      (∀ b ∈ items, (!(b.isDict && isType b "image") || imageUrlOk b) = true) →
      (∀ x ∈ nc, (!x.isDict || ccFree x) = true) ∧
      (∀ t ∈ tms, msgBlocksCCFree t = true) := by
  induction items with
  | nil =>
      intro nc tms h _
      simp only [processUserItems] at h
      injection h with h
      injection h with h1 h2
      subst h1
      subst h2
      constructor
      · intro x hx
        cases hx
      · intro t ht
        cases ht
  | cons it rest ih =>
      intro nc tms h himg
      simp only [processUserItems] at h
      cases hu : userItem p it with
      | none => rw [hu] at h; simp at h
      | some ab =>
          obtain ⟨a, b⟩ := ab
          rw [hu] at h
          simp only [Option.bind_eq_bind', Option.some_bind] at h
          cases hrest : processUserItems p rest with
          | none => rw [hrest] at h; simp at h
          | some r =>
              obtain ⟨nc2, tms2⟩ := r
              rw [hrest] at h
              simp only [Option.bind_eq_bind', Option.some_bind, Option.pure_def,
                Option.some.injEq, Prod.mk.injEq] at h
              obtain ⟨h1, h2⟩ := h
              subst h1
              subst h2
              have hhead := userItem_ccFree p it a b hu
                (himg it (List.mem_cons_self it rest))
              have htail := ih nc2 tms2 hrest
                (fun b hb => himg b (List.mem_cons_of_mem it hb))
              constructor
              · intro x hx
                rcases List.mem_append.mp hx with hx | hx
                · exact hhead.1 x hx
                · exact htail.1 x hx
              · intro t ht
                rcases List.mem_append.mp ht with ht | ht
                · exact hhead.2 t ht
                · exact htail.2 t ht

theorem msgBlocksCCFree_intro (msg : J)
    (h : blocksCCFree (msg.getD "content" .null) = true) :
    msgBlocksCCFree msg = true := by
  unfold msgBlocksCCFree
  split
  · exact h
  · rfl

theorem msgBlocksCCFree_setKey_content (msg X : J) (hd : msg.isDict = true)
    (hX : blocksCCFree X = true) :
    msgBlocksCCFree (msg.setKey "content" X) = true := by
  apply msgBlocksCCFree_intro
  unfold J.getD
  rw [getOpt_setKey_self msg "content" X hd]
  exact hX

theorem blocksCCFree_other (items : List J) :
    blocksCCFree (.arr (items.filterMap (fun it =>
      if it.isDict then
        (if isType it "tool_use" then none else some (remove_cache_control it))
      else some it))) = true := by
  simp only [blocksCCFree, List.all_eq_true]
  intro b hb
  obtain ⟨it, hit, hf⟩ := List.mem_filterMap.mp hb
  by_cases hd : it.isDict = true
  · rw [if_pos hd] at hf
    by_cases ht : isType it "tool_use" = true
    · rw [if_pos ht] at hf
      cases hf
    · rw [if_neg ht] at hf
      injection hf with hf
      rw [← hf]
      simp [ccFree_removeCC it]
  · rw [if_neg hd] at hf
    injection hf with hf
    rw [← hf]
    have hdf : it.isDict = false := by simpa using hd
    simp [hdf]

theorem items_nil_of_filters_empty (items : List J)
    (h1 : items.filterMap (fun it =>
      if it.isDict && isType it "tool_use" then some (convert_tool_use_to_openai it)
      else none) = [])
    (h2 : items.filterMap (fun it =>
      if it.isDict then
        (if isType it "tool_use" then none else some (remove_cache_control it))
      else some it) = []) :
    items = [] := by
  cases items with
  | nil => rfl
  | cons it rest =>
      exfalso
      by_cases hd : it.isDict = true
      · by_cases ht : isType it "tool_use" = true
        · simp [hd, ht] at h1
        · simp [hd, ht] at h2
      · simp [hd] at h2

theorem processAssistant_msgBlocksCCFree (msg : J) (out p2 : List J)
    (hd : msg.isDict = true)
    (hstep : processAssistant msg = some (out, p2)) :
    ∀ x ∈ out, msgBlocksCCFree x = true := by
  simp only [processAssistant] at hstep
  cases hex : extract_tool_use_ids msg with
  | none => rw [hex] at hstep; simp at hstep
  | some pend =>
      rw [hex] at hstep
      simp only [Option.bind_eq_bind', Option.some_bind] at hstep
      cases hcontent : msg.getD "content" .null with
      | arr items =>
          simp only [hcontent] at hstep
          by_cases htc : (items.filterMap (fun it =>
              if it.isDict && isType it "tool_use" then some (convert_tool_use_to_openai it)
              else none)).isEmpty = true
          · rw [if_pos htc] at hstep
            simp only [Option.pure_def, Option.some.injEq, Prod.mk.injEq] at hstep
            obtain ⟨h1, h2⟩ := hstep
            intro x hx
            rw [← h1] at hx
            rw [List.mem_singleton.mp hx]
            by_cases ho : (items.filterMap (fun it =>
                if it.isDict then
                  (if isType it "tool_use" then none else some (remove_cache_control it))
                else some it)).isEmpty = true
            · rw [if_pos ho]
              have hitems : items = [] :=
                items_nil_of_filters_empty items
                  (by simpa using htc) (by simpa using ho)
              subst hitems
              exact msgBlocksCCFree_setKey_content msg _ hd rfl
            · rw [if_neg ho]
              exact msgBlocksCCFree_setKey_content msg _ hd (blocksCCFree_other items)
          · rw [if_neg htc] at hstep
            by_cases ho : (items.filterMap (fun it =>
                if it.isDict then
                  (if isType it "tool_use" then none else some (remove_cache_control it))
                else some it)).isEmpty = true
            · rw [if_pos ho] at hstep
              simp only [Option.pure_def, Option.some.injEq, Prod.mk.injEq] at hstep
              obtain ⟨h1, h2⟩ := hstep
              intro x hx
              rw [← h1] at hx
              rw [List.mem_singleton.mp hx]
              exact msgBlocksCCFree_setKey_content _ _ (isDict_setKey msg _ _ hd) rfl
            · rw [if_neg ho] at hstep
              by_cases htp : (((items.filterMap (fun it =>
                  if it.isDict then
                    (if isType it "tool_use" then none else some (remove_cache_control it))
                  else some it))).filterMap (fun it =>
                    if it.isDict && isType it "text" then some (it.getD "text" (.str ""))
                    else none)).isEmpty = true
              · rw [if_pos htp] at hstep
                simp only [Option.pure_def, Option.some.injEq, Prod.mk.injEq] at hstep
                obtain ⟨h1, h2⟩ := hstep
                intro x hx
                rw [← h1] at hx
                rw [List.mem_singleton.mp hx]
                exact msgBlocksCCFree_setKey_content _ _ (isDict_setKey msg _ _ hd) rfl
              · rw [if_neg htp] at hstep
                cases hj : pyJoin " " (((items.filterMap (fun it =>
                    if it.isDict then
                      (if isType it "tool_use" then none else some (remove_cache_control it))
                    else some it))).filterMap (fun it =>
                      if it.isDict && isType it "text" then some (it.getD "text" (.str ""))
                      else none)) with
                | none => rw [hj] at hstep; simp at hstep
                | some s =>
                    rw [hj] at hstep
                    simp only [Option.bind_eq_bind', Option.some_bind, Option.pure_def,
                      Option.some.injEq, Prod.mk.injEq] at hstep
                    obtain ⟨h1, h2⟩ := hstep
                    intro x hx
                    rw [← h1] at hx
                    rw [List.mem_singleton.mp hx]
                    exact msgBlocksCCFree_setKey_content _ _ (isDict_setKey msg _ _ hd) rfl
      | null =>
          simp only [hcontent, Option.pure_def, Option.some.injEq, Prod.mk.injEq] at hstep
          obtain ⟨h1, h2⟩ := hstep
          intro x hx
          rw [← h1] at hx
          rw [List.mem_singleton.mp hx]
          exact msgBlocksCCFree_intro msg (by rw [hcontent]; rfl)
      | bool b =>
          simp only [hcontent, Option.pure_def, Option.some.injEq, Prod.mk.injEq] at hstep
          obtain ⟨h1, h2⟩ := hstep
          intro x hx
          rw [← h1] at hx
          rw [List.mem_singleton.mp hx]
          exact msgBlocksCCFree_intro msg (by rw [hcontent]; rfl)
      | num n =>
          simp only [hcontent, Option.pure_def, Option.some.injEq, Prod.mk.injEq] at hstep
          obtain ⟨h1, h2⟩ := hstep
          intro x hx
          rw [← h1] at hx
          rw [List.mem_singleton.mp hx]
          exact msgBlocksCCFree_intro msg (by rw [hcontent]; rfl)
      | str s =>
          simp only [hcontent, Option.pure_def, Option.some.injEq, Prod.mk.injEq] at hstep
          obtain ⟨h1, h2⟩ := hstep
          intro x hx
          rw [← h1] at hx
          rw [List.mem_singleton.mp hx]
          exact msgBlocksCCFree_intro msg (by rw [hcontent]; rfl)
      | obj gs =>
          simp only [hcontent, Option.pure_def, Option.some.injEq, Prod.mk.injEq] at hstep
          obtain ⟨h1, h2⟩ := hstep
          intro x hx
          rw [← h1] at hx
          rw [List.mem_singleton.mp hx]
          exact msgBlocksCCFree_intro msg (by rw [hcontent]; rfl)

theorem passThrough_msgBlocksCCFree (p : List J) (msg : J) (out p2 : List J)
    (hd : msg.isDict = true)
    (hstep : passThrough p msg = some (out, p2)) :
    ∀ x ∈ out, msgBlocksCCFree x = true := by
  simp only [passThrough] at hstep
  cases hcontent : msg.getD "content" .null with
  | arr items =>
      simp only [hcontent, Option.some.injEq, Prod.mk.injEq] at hstep
      obtain ⟨h1, h2⟩ := hstep
      intro x hx
      rw [← h1] at hx
      rw [List.mem_singleton.mp hx]
      apply msgBlocksCCFree_setKey_content _ _ hd
      simp only [blocksCCFree, List.all_eq_true]
      intro b hb
      obtain ⟨it, hit, hf⟩ := List.mem_map.mp hb
      by_cases hdi : it.isDict = true
      · rw [if_pos hdi] at hf
        rw [← hf]
        simp [ccFree_removeCC it]
      · rw [if_neg hdi] at hf
        rw [← hf]
        have hdf : it.isDict = false := by simpa using hdi
        simp [hdf]
  | null =>
      simp only [hcontent, Option.some.injEq, Prod.mk.injEq] at hstep
      obtain ⟨h1, h2⟩ := hstep
      intro x hx
      rw [← h1] at hx
      rw [List.mem_singleton.mp hx]
      exact msgBlocksCCFree_intro msg (by rw [hcontent]; rfl)
  | bool b =>
      simp only [hcontent, Option.some.injEq, Prod.mk.injEq] at hstep
      obtain ⟨h1, h2⟩ := hstep
      intro x hx
      rw [← h1] at hx
      rw [List.mem_singleton.mp hx]
      exact msgBlocksCCFree_intro msg (by rw [hcontent]; rfl)
  | num n =>
      simp only [hcontent, Option.some.injEq, Prod.mk.injEq] at hstep
      obtain ⟨h1, h2⟩ := hstep
      intro x hx
      rw [← h1] at hx
      rw [List.mem_singleton.mp hx]
      exact msgBlocksCCFree_intro msg (by rw [hcontent]; rfl)
  | str s =>
      simp only [hcontent, Option.some.injEq, Prod.mk.injEq] at hstep
      obtain ⟨h1, h2⟩ := hstep
      intro x hx
      rw [← h1] at hx
      rw [List.mem_singleton.mp hx]
      exact msgBlocksCCFree_intro msg (by rw [hcontent]; rfl)
  | obj gs =>
      simp only [hcontent, Option.some.injEq, Prod.mk.injEq] at hstep
      obtain ⟨h1, h2⟩ := hstep
      intro x hx
      rw [← h1] at hx
      rw [List.mem_singleton.mp hx]
      exact msgBlocksCCFree_intro msg (by rw [hcontent]; rfl)

theorem cleanStep_msgBlocksCCFree (p : List J) (m : J) (o p2 : List J)
    (hstep : cleanStep p m = some (o, p2)) (himg : msgImagesOk m = true) :
    ∀ x ∈ o, msgBlocksCCFree x = true := by
  by_cases hd : m.isDict = true
  · simp only [cleanStep, hd, if_true] at hstep
    by_cases hrole : jStrEq (m.getD "role" (.str "")) "assistant" = true
    · rw [if_pos hrole] at hstep
      exact processAssistant_msgBlocksCCFree m o p2 hd hstep
    · rw [if_neg hrole] at hstep
      cases hcontent : m.getD "content" .null with
      | arr items =>
          simp only [hcontent] at hstep
          by_cases huser : jStrEq (m.getD "role" (.str "")) "user" = true
          · rw [if_pos huser] at hstep
            cases hPU : processUserItems p items with
            | none => rw [hPU] at hstep; simp at hstep
            | some r =>
                obtain ⟨nc, tms⟩ := r
                rw [hPU] at hstep
                simp only [Option.bind_eq_bind', Option.some_bind, Option.pure_def,
                  Option.some.injEq, Prod.mk.injEq] at hstep
                obtain ⟨h1, h2⟩ := hstep
                have himgs : ∀ b ∈ items,
                    (!(b.isDict && isType b "image") || imageUrlOk b) = true := by
                  unfold msgImagesOk at himg
                  rw [if_pos hd, if_pos huser, hcontent] at himg
                  simpa [List.all_eq_true] using himg
                have hcc := processUserItems_ccFree p items nc tms hPU himgs
                intro x hx
                rw [← h1] at hx
                rcases List.mem_append.mp hx with hx | hx
                · by_cases hnc : nc.isEmpty = true
                  · rw [if_pos hnc] at hx
                    cases hx
                  · rw [if_neg hnc] at hx
                    rw [List.mem_singleton.mp hx]
                    apply msgBlocksCCFree_setKey_content _ _ hd
                    simp only [blocksCCFree, List.all_eq_true]
                    exact fun b hb => hcc.1 b hb
                · exact hcc.2 x hx
          · rw [if_neg huser] at hstep
            exact passThrough_msgBlocksCCFree p m o p2 hd hstep
      | null =>
          simp only [hcontent] at hstep
          exact passThrough_msgBlocksCCFree p m o p2 hd hstep
      | bool b =>
          simp only [hcontent] at hstep
          exact passThrough_msgBlocksCCFree p m o p2 hd hstep
      | num n =>
          simp only [hcontent] at hstep
          exact passThrough_msgBlocksCCFree p m o p2 hd hstep
      | str s =>
          simp only [hcontent] at hstep
          exact passThrough_msgBlocksCCFree p m o p2 hd hstep
      | obj gs =>
          simp only [hcontent] at hstep
          exact passThrough_msgBlocksCCFree p m o p2 hd hstep
  · have hdf : m.isDict = false := by simpa using hd
    rw [cleanStep_nondict p m hdf] at hstep
    injection hstep with h
    injection h with h1 h2
    intro x hx
    rw [← h1] at hx
    rw [List.mem_singleton.mp hx]
    simp [msgBlocksCCFree, hdf]

theorem cleanMessagesAux_msgBlocksCCFree (ms : List J) :
    ∀ (p : List J) (r : List J × List J),
      cleanMessagesAux p ms = some r →
      (∀ m ∈ ms, msgImagesOk m = true) →
      ∀ x ∈ r.1, msgBlocksCCFree x = true := by
  induction ms with
  | nil =>
      intro p r h _ x hx
      simp only [cleanMessagesAux] at h
      injection h with h
      subst h
      cases hx
  | cons m ms2 ih =>
      intro p r h himg x hx
      rw [cleanMessagesAux_cons] at h
      cases hc : cleanStep p m with
      | none => rw [hc] at h; simp at h
      | some s =>
          obtain ⟨o, pmid⟩ := s
          rw [hc, Option.some_bind] at h
          cases ha : cleanMessagesAux pmid ms2 with
          | none => rw [ha] at h; simp at h
          | some r2 =>
              rw [ha] at h
              simp only [Option.map_some', Option.some.injEq] at h
              subst h
              rcases List.mem_append.mp hx with hx | hx
              · exact cleanStep_msgBlocksCCFree p m o pmid hc
                  (himg m (List.mem_cons_self m ms2)) x hx
              · exact ih pmid r2 ha
                  (fun m2 hm2 => himg m2 (List.mem_cons_of_mem m hm2)) x hx

theorem clean_messages_msgBlocksCCFree (ms ms2 : List J)
    (h : clean_messages ms = some ms2)
    (himg : ∀ m ∈ ms, msgImagesOk m = true) :
    ∀ x ∈ ms2, msgBlocksCCFree x = true := by
  unfold clean_messages at h
  cases ha : cleanMessagesAux [] ms with
  | none => rw [ha] at h; simp at h
  | some r =>
      rw [ha] at h
      simp only [Option.map_some', Option.some.injEq] at h
      intro x hx
      rw [← h] at hx
      exact cleanMessagesAux_msgBlocksCCFree ms [] r ha himg x hx

/-- C7 counterexample: an image block whose url source carries a dict
value containing a `cache_control` key is converted with that value passed
through verbatim, so the rewritten envelope still holds a `cache_control`
key inside a content block — contradicting the claim for every envelope. -/
theorem c7_counterexample :
    process_request_body exEnvBad = some exEnvBadOut ∧
    envContentCCFree exEnvBadOut = false :=
  ⟨rfl, rfl⟩

/-- C7 (amended): after translation no `cache_control` key occurs at any
nesting depth within the `system` field or within any content block of any
message, provided every image block of a user message converts to a string
url (the data-model shape); the conversion of an image block embeds its
url/source url value verbatim, which is the single leak the counterexample
exhibits. -/
theorem c7_no_cache_control_in_rewritten (d out : J)
    (hp : process_request_body d = some out) (himg : imagesOk d = true) :
    envContentCCFree out = true := by
  obtain ⟨fs, hdfs, hcases⟩ := process_request_body_cases d out hp
  have hsysout : out.getOpt "system" = (d.getOpt "system").map remove_cache_control := by
    rcases hcases with ⟨hm, hout⟩ | ⟨ms, ms2, hm, hc, hout⟩
    · rw [hout]
      exact stripFields_getOpt_system d
    · rw [hout, getOpt_setKey_other _ _ _ _ (by decide)]
      exact stripFields_getOpt_system d
  have hsys : ccFree (out.getD "system" .null) = true := by
    unfold J.getD
    rw [hsysout]
    cases hd0 : d.getOpt "system" with
    | none => rfl
    | some v => exact ccFree_removeCC v
  unfold envContentCCFree
  rw [hsys, Bool.true_and]
  rcases hcases with ⟨hm, hout⟩ | ⟨ms, ms2, hm, hc, hout⟩
  · rw [hout, hm]
  · have hmsgs : out.getOpt "messages" = some (.arr ms2) := by
      rw [hout]
      apply getOpt_setKey_self
      rw [hdfs]
      exact stripFields_isDict fs
    rw [hmsgs]
    simp only [List.all_eq_true]
    have hdm : d.getOpt "messages" = some (.arr ms) := by
      rw [← stripFields_getOpt_unblocked d "messages" (by decide) (by decide)]
      exact hm
    have himgs : ∀ m ∈ ms, msgImagesOk m = true := by
      unfold imagesOk at himg
      rw [hdm] at himg
      simpa [List.all_eq_true] using himg
    exact clean_messages_msgBlocksCCFree ms ms2 hc himgs

/-- Witness for the amended C7 at a concrete envelope carrying
`cache_control` under both `system` and a user text block. -/
theorem c7_witness : envContentCCFree exEnvC7WOut = true :=
  c7_no_cache_control_in_rewritten exEnvC7W exEnvC7WOut rfl rfl

end CursorProxy
